/-
Verification of the package-transfer pipeline of `gh-migrate-packages`
(Go), against its natural-language specification.

The Go source is shallowly embedded: pure computations become Lean
functions, external effects (filesystem, HTTP, the docker engine,
subprocesses) become explicit oracle parameters or threaded state, and
every function that instruments a claim additionally returns a trace of
the calls it made (URL resolutions, transfers, docker operations), so
that "the callback is never invoked" becomes a statement about the
trace.
-/
import Mathlib

namespace GhMigratePackages

/-! ## Core data model

`ResultState` from `internal/providers` (part_003): the three-valued
outcome used by every operation. -/

inductive ResultState where
  | Success
  | Skipped
  | Failed
deriving DecidableEq, Repr

open ResultState

/-- Go `filepath.Join` on already-clean, non-empty segments:
interleaves `/` between the parts. -/
def filepathJoin (parts : List String) : String :=
  String.intercalate "/" parts

/-- Go `strings.Split(s, ":")` restricted to what `uploadPackage` needs:
the element after the first `:` of a `name:tag` container filename. -/
def tagOfContainerFilename (filename : String) : String :=
  ((filename.splitOn ":").drop 1).headD ""

/-- `utils.FileExists`, with the filesystem modelled as the list of
paths of existing files. -/
def fileExists (fs : List String) (path : String) : Bool :=
  fs.contains path

/-! ## BaseProvider.downloadPackage (internal/providers/common.go 164-214)

The download/URL callbacks are oracles:
* `getUrl` is the result the URL-generator callback would produce;
* `download` is the outcome of the transfer callback; when it returns
  `(Success, none)` the transfer has written the output file (that is
  the contract of `utils.DownloadFile`, which creates `outputPath` on a
  200 response and returns a non-nil error otherwise);
* `mkdirOk` is the outcome of `os.MkdirAll`.

The embedding returns `(result, error?, filesystem after the call,
number of getUrl calls, number of download calls)`. -/

/-- The deterministic local output path used by `downloadPackage`. -/
def downloadOutputPath (owner packageType packageName version : String)
    (downloadedFilename : Option String) (filename : String) : String :=
  filepathJoin ["migration-packages", "packages", owner, packageType,
    packageName, version, downloadedFilename.getD filename]

def downloadPackage (fs : List String)
    (owner packageType packageName version filename : String)
    (downloadedFilename : Option String)
    (mkdirOk : Bool)
    (getUrl : Except String String)
    (download : String → String → ResultState × Option String) :
    ResultState × Option String × List String × Nat × Nat :=
  let outputPath :=
    downloadOutputPath owner packageType packageName version downloadedFilename filename
  if fileExists fs outputPath then
    (Skipped, none, fs, 0, 0)
  else if !mkdirOk then
    (Failed, some "mkdir failed", fs, 0, 0)
  else
    match getUrl with
    | .error e => (Failed, some e, fs, 1, 0)
    | .ok downloadUrl =>
      match download downloadUrl outputPath with
      | (_, some e) => (Failed, some e, fs, 1, 1)
      | (result, none) =>
        let fs' := if result = Success then outputPath :: fs else fs
        (result, none, fs', 1, 1)

/-! ## BaseProvider.uploadPackage (internal/providers/common.go 216-255) -/

/-- The local package directory `uploadPackage` resolves: for containers
the version segment is the tag extracted from the `name:tag` filename,
otherwise it is the version itself.  `sourceOrg` is
`GHMPKG_SOURCE_ORGANIZATION`. -/
def uploadPackageDir (sourceOrg packageType packageName version filename : String) : String :=
  if packageType = "container" then
    filepathJoin ["migration-packages", "packages", sourceOrg, packageType,
      packageName, tagOfContainerFilename filename]
  else
    filepathJoin ["migration-packages", "packages", sourceOrg, packageType,
      packageName, version]

/-- `uploadPackage` embedding.  Returns `(result, error?, getUrl calls,
upload calls)`.  Note the final line of the Go function is
`return Success, nil`: the `result` produced by the upload callback is
inspected only for logging and is not returned. -/
def uploadPackage (fs : List String)
    (sourceOrg packageType packageName version filename : String)
    (getUrl : Except String String)
    (upload : String → String → ResultState × Option String) :
    ResultState × Option String × Nat × Nat :=
  let packageDir := uploadPackageDir sourceOrg packageType packageName version filename
  if !fileExists fs packageDir then
    (Skipped, none, 0, 0)
  else
    match getUrl with
    | .error e => (Failed, some e, 1, 0)
    | .ok uploadUrl =>
      match upload uploadUrl packageDir with
      | (_, some e) => (Failed, some e, 1, 1)
      | (_result, none) => (Success, none, 1, 1)

/-! ## MavenProvider.Upload transfer callback (part_002, lines 287-327)

Given that `utils.UploadFile` produced a response, the callback
classifies the HTTP status: 409 is Skipped, any other status above 299
is Failed, anything else Success.  `transportErr` models a non-nil
error from `UploadFile` itself. -/

def mavenUploadCallback (statusCode : Nat) (transportErr : Option String)
    (filename : String) : ResultState × Option String :=
  match transportErr with
  | some e => (Failed, some e)
  | none =>
    if statusCode = 409 then (Skipped, none)
    else if statusCode > 299 then (Failed, some ("error uploading file: " ++ filename))
    else (Success, none)

/-- `MavenProvider.Upload`: `uploadPackage` applied to the Maven
URL-generator and transfer callbacks (the goroutine/semaphore wrapper
around the single call returns exactly the inner result). -/
def mavenUpload (fs : List String)
    (sourceOrg packageName version filename : String)
    (getUrl : Except String String)
    (statusCode : Nat) (transportErr : Option String) :
    ResultState × Option String × Nat × Nat :=
  uploadPackage fs sourceOrg "maven" packageName version filename getUrl
    (fun _ _ => mavenUploadCallback statusCode transportErr filename)

/-! ## Report (pkg/common, part_012) -/

structure Report where
  PackageSuccess : Nat := 0
  VersionSuccess : Nat := 0
  FileSuccess : Nat := 0
  PackagesSkipped : Nat := 0
  VersionsSkipped : Nat := 0
  FilesSkipped : Nat := 0
  PackagesFailed : Nat := 0
  VersionsFailed : Nat := 0
  FilesFailed : Nat := 0
  PackagesByType : List (String × Nat) := []
  currentPackageType : String := ""
deriving DecidableEq, Repr

def NewReport : Report := {}

/-- The Go map increment `r.PackagesByType[packageType]++`, on an
association list. -/
def bumpType (m : List (String × Nat)) (k : String) : List (String × Nat) :=
  match m with
  | [] => [(k, 1)]
  | (k', n) :: rest => if k' = k then (k', n + 1) :: rest else (k', n) :: bumpType rest k

def Report.IncPackages (r : Report) (result : ResultState) : Report :=
  match result with
  | Success =>
    let r' := { r with PackageSuccess := r.PackageSuccess + 1 }
    if r.currentPackageType ≠ "" then
      { r' with PackagesByType := bumpType r'.PackagesByType r.currentPackageType }
    else r'
  | Skipped => { r with PackagesSkipped := r.PackagesSkipped + 1 }
  | Failed => { r with PackagesFailed := r.PackagesFailed + 1 }

def Report.IncVersions (r : Report) (result : ResultState) : Report :=
  match result with
  | Success => { r with VersionSuccess := r.VersionSuccess + 1 }
  | Skipped => { r with VersionsSkipped := r.VersionsSkipped + 1 }
  | Failed => { r with VersionsFailed := r.VersionsFailed + 1 }

def Report.IncFiles (r : Report) (result : ResultState) : Report :=
  match result with
  | Success => { r with FileSuccess := r.FileSuccess + 1 }
  | Skipped => { r with FilesSkipped := r.FilesSkipped + 1 }
  | Failed => { r with FilesFailed := r.FilesFailed + 1 }

/-! ## Catalog list utilities (internal/utils/utils.go) -/

def joinColon (xs : List String) : String := String.intercalate ":" xs

/-- Loop body of `utils.GetListOfUniqueEntries`, with `seen` the set of
already-emitted join-keys. -/
def getListOfUniqueEntriesGo (cols : List Nat) :
    List (List String) → List String → List (List String)
  | [], _ => []
  | r :: rs, seen =>
    let subset := cols.map (fun c => r.getD c "")
    let key := joinColon subset
    if seen.contains key then getListOfUniqueEntriesGo cols rs seen
    else subset :: getListOfUniqueEntriesGo cols rs (key :: seen)

/-- `utils.GetListOfUniqueEntries`: unique combinations of the given
columns, in first-encounter order (uniqueness keyed on the
colon-joined subset). -/
def getListOfUniqueEntries (data : List (List String)) (cols : List Nat) :
    List (List String) :=
  getListOfUniqueEntriesGo cols data []

def matchesFilters (record : List String) (filters : List (Nat × String)) : Bool :=
  filters.all (fun cv => record.getD cv.1 "" == cv.2)

/-- Loop body of `utils.GetFlatListOfColumn`. -/
def getFlatListOfColumnGo (filters : List (Nat × String)) (target : Nat) :
    List (List String) → List String → List String
  | [], _ => []
  | r :: rs, seen =>
    if matchesFilters r filters then
      let x := r.getD target ""
      if seen.contains x then getFlatListOfColumnGo filters target rs seen
      else x :: getFlatListOfColumnGo filters target rs (x :: seen)
    else getFlatListOfColumnGo filters target rs seen

/-- `utils.GetFlatListOfColumn`: unique values of column `target` over
the records matching all filters, in first-encounter order. -/
def getFlatListOfColumn (data : List (List String)) (filters : List (Nat × String))
    (target : Nat) : List String :=
  getFlatListOfColumnGo filters target data []

/-! ## ProcessPackages (pkg/common, part_012 lines 107-209)

The per-version callback (`pull.Download` / `sync.Upload`) is abstracted
as an oracle returning the list of per-file `ResultState`s it records
into the report via `IncFiles`, together with the error it returns.
`packageExists` is the destination-catalog pre-check
(`api.PackageExists`) and `connect` the outcome of `Provider.Connect`,
both oracles.  Besides the final report and error, the embedding emits
a trace: one `GroupRec` per package group that reached processing, with
one `VersionRec` per callback invocation, in invocation order. -/

structure VersionRec where
  version : String
  filenames : List String
  fileResults : List ResultState
  vstate : ResultState
deriving DecidableEq, Repr

structure GroupRec where
  owner : String
  repository : String
  packageType : String
  packageName : String
  versionRecs : List VersionRec
  pstate : Option ResultState
deriving DecidableEq, Repr

abbrev ProcessFn :=
  String → String → String → String → String → List String →
    List ResultState × Option String

/-- Keys of `providerLookup` (internal/providers/common.go 23-29). -/
def supportedPackageTypes : List String :=
  ["container", "maven", "npm", "rubygems", "nuget"]

/-- The version loop of `ProcessPackages`
(`for i := len(versions) - 1; i >= 0; i--`); the caller passes the
enumerated version list already reversed. -/
def processVersionsGo (fn : ProcessFn) (packages : List (List String))
    (owner repository packageType packageName : String) :
    List String → Report → Report × List VersionRec × Option String
  | [], report => (report, [], none)
  | version :: rest, report =>
    let fileFilters := [(0, owner), (1, repository), (2, packageType),
      (3, packageName), (4, version)]
    let filenames := getFlatListOfColumn packages fileFilters 5
    let filesSkipped := report.FilesSkipped
    let filesFailed := report.FilesFailed
    let fr := fn owner repository packageType packageName version filenames
    let report1 := fr.1.foldl Report.IncFiles report
    let vstate : ResultState :=
      if report1.FilesFailed > filesFailed then Failed
      else if report1.FilesSkipped > filesSkipped then Skipped
      else Success
    let report2 := report1.IncVersions vstate
    let vrec : VersionRec := ⟨version, filenames, fr.1, vstate⟩
    match fr.2 with
    | some e => (report2, [vrec], some e)
    | none =>
      let next := processVersionsGo fn packages owner repository packageType
        packageName rest report2
      (next.1, vrec :: next.2.1, next.2.2)

/-- The distinct versions of one package group
(`utils.GetFlatListOfColumn(packages, versionFilters, 4)`). -/
def groupVersions (packages : List (List String)) (pkg : List String) : List String :=
  getFlatListOfColumn packages [(0, pkg.getD 0 ""), (1, pkg.getD 1 ""),
    (2, pkg.getD 2 ""), (3, pkg.getD 3 "")] 4

/-- The per-group body of `ProcessPackages` after provider setup and
pre-check: set `currentPackageType`, enumerate the group's versions,
run the version loop newest-enumerated-first (`versions.reverse`), and
derive the package-level increment from the version counter deltas. -/
def processGroup (fn : ProcessFn) (packages : List (List String))
    (pkg : List String) (report : Report) : Report × GroupRec × Option String :=
  let report0 := { report with currentPackageType := pkg.getD 2 "" }
  let versions := groupVersions packages pkg
  let vres := processVersionsGo fn packages (pkg.getD 0 "") (pkg.getD 1 "")
    (pkg.getD 2 "") (pkg.getD 3 "") versions.reverse report0
  match vres.2.2 with
  | some e =>
    (vres.1,
      ⟨pkg.getD 0 "", pkg.getD 1 "", pkg.getD 2 "", pkg.getD 3 "", vres.2.1, none⟩,
      some e)
  | none =>
    let pstate : ResultState :=
      if vres.1.VersionsFailed > report0.VersionsFailed then Failed
      else if vres.1.VersionsSkipped > report0.VersionsSkipped then Skipped
      else Success
    (vres.1.IncPackages pstate,
      ⟨pkg.getD 0 "", pkg.getD 1 "", pkg.getD 2 "", pkg.getD 3 "", vres.2.1,
        some pstate⟩,
      none)

/-- The group loop of `ProcessPackages` (the part after the `i == 0`
header skip).  `provType` is the package type of the currently held
provider, `none` before the first instantiation. -/
def processGroupsGo (fn : ProcessFn) (packages : List (List String))
    (desired : String) (skipIfExists : Bool)
    (packageExists : String → String → Except String Bool)
    (connect : String → Option String) :
    List (List String) → Option String → Report →
      Report × List GroupRec × Option String
  | [], _, report => (report, [], none)
  | pkg :: rest, provType, report =>
    if desired ≠ "" ∧ pkg.getD 2 "" ≠ desired then
      processGroupsGo fn packages desired skipIfExists packageExists connect
        rest provType report
    else if provType ≠ some (pkg.getD 2 "") ∧ pkg.getD 2 "" ∉ supportedPackageTypes then
      (report, [], some ("provider not found: " ++ pkg.getD 2 ""))
    else
      match (if provType ≠ some (pkg.getD 2 "") then connect (pkg.getD 2 "") else none) with
      | some e => (report, [], some e)
      | none =>
        -- destination pre-check, upload path only
        match (if skipIfExists then some (packageExists (pkg.getD 3 "") (pkg.getD 2 ""))
            else none) with
        | some (.error e) =>
          (report.IncPackages Failed,
            [⟨pkg.getD 0 "", pkg.getD 1 "", pkg.getD 2 "", pkg.getD 3 "", [], some Failed⟩],
            some e)
        | some (.ok true) =>
          let next := processGroupsGo fn packages desired skipIfExists
            packageExists connect rest (some (pkg.getD 2 ""))
            (report.IncPackages Skipped)
          (next.1,
            ⟨pkg.getD 0 "", pkg.getD 1 "", pkg.getD 2 "", pkg.getD 3 "", [], some Skipped⟩
              :: next.2.1,
            next.2.2)
        | _ =>
          let gres := processGroup fn packages pkg report
          match gres.2.2 with
          | some e => (gres.1, [gres.2.1], some e)
          | none =>
            let next := processGroupsGo fn packages desired skipIfExists
              packageExists connect rest (some (pkg.getD 2 "")) gres.1
            (next.1, gres.2.1 :: next.2.1, next.2.2)

/-- `common.ProcessPackages`: computes the unique group list and
iterates it, skipping index 0 (`if i == 0 { continue }`). -/
def processPackages (fn : ProcessFn) (packages : List (List String))
    (desired : String) (skipIfExists : Bool)
    (packageExists : String → String → Except String Bool)
    (connect : String → Option String) :
    Report × List GroupRec × Option String :=
  let pkgs := getListOfUniqueEntries packages [0, 1, 2, 3]
  processGroupsGo fn packages desired skipIfExists packageExists connect
    (pkgs.drop 1) none NewReport

/-- The three-level roll-up rule as the spec words it: `Failed` if any
member failed, else `Skipped` if any member was skipped, else
`Success`. -/
def rollup (results : List ResultState) : ResultState :=
  if Failed ∈ results then Failed
  else if Skipped ∈ results then Skipped
  else Success

/-- Occurrences of a given `ResultState` in a list. -/
def countRS (x : ResultState) : List ResultState → Nat
  | [] => 0
  | a :: t => (if a = x then 1 else 0) + countRS x t

/-! ## retryOperation (internal/api, part_006 lines 112-137)

The wrapped operation is an oracle from the attempt number (1-based) to
the error it returns (`none` = success).  The embedding returns the
final error, the number of invocations made, and the list of sleep
durations performed between consecutive attempts, in order.  `a` is the
current attempt number and the second argument the number of attempts
remaining (`maxRetries - attempt + 1`); a sleep of
`retryDelay * 2^(attempt-1)` happens after a failed attempt only when
`attempt < maxRetries`, i.e. when at least two attempts remain. -/

def retryGo (op : Nat → Option String) (d : Nat) :
    Nat → Nat → Option String × Nat × List Nat
  | _, 0 => (none, 0, [])
  | a, 1 => (op a, 1, [])
  | a, remaining + 2 =>
    match op a with
    | none => (none, 1, [])
    | some _ =>
      let next := retryGo op d (a + 1) (remaining + 1)
      (next.1, next.2.1 + 1, (d * 2 ^ (a - 1)) :: next.2.2)

/-- `api.retryOperation`: `maxRetries` is `viper.GetInt("MAX_RETRIES")`
(an integer, ≤ 0 also when unset) with fallback 3; the retry delay is
the parsed `RETRY_DELAY` duration with fallback one second, modelled as
`cfgRetryDelay = none` when `time.ParseDuration` fails (1000 = 1s in
milliseconds). -/
def retryOperation (cfgMaxRetries : Int) (cfgRetryDelay : Option Nat)
    (op : Nat → Option String) : Option String × Nat × List Nat :=
  let maxRetries : Nat := if cfgMaxRetries ≤ 0 then 3 else cfgMaxRetries.toNat
  let d := cfgRetryDelay.getD 1000
  retryGo op d 1 maxRetries

/-! ## RubyGems Rename (part_005 lines 66-79; utils.RenameFileOccurances)

File contents are `List Char`.  `replaceAllFuel` is Go
`strings.Replace(s, old, new, -1)` for a nonempty `old`: scan left to
right, replacing non-overlapping occurrences.  The fuel argument (an
upper bound on the scanned length) only makes the recursion structural
so that concrete instances evaluate. -/

def replaceAllFuel (pat new : List Char) : Nat → List Char → List Char
  | 0, s => s
  | _ + 1, [] => []
  | fuel + 1, c :: rest =>
    if pat ≠ [] ∧ pat.isPrefixOf (c :: rest) then
      new ++ replaceAllFuel pat new fuel ((c :: rest).drop pat.length)
    else
      c :: replaceAllFuel pat new fuel rest

/-- `strings.Replace(s, pat, new, -1)` (nonempty `pat`). -/
def replaceAll (pat new s : List Char) : List Char :=
  replaceAllFuel pat new s.length s

/-- `utils.RenameFileOccurances(filename, oldScope, newScope, -1)`
acting on the file content. -/
def renameFileOccurances (content oldScope newScope : List Char) : List Char :=
  replaceAll oldScope newScope content

/-- The registry base URL `NewBaseProvider` computes:
`https://{type}.pkg.{hostname}/` with hostname falling back to
`github.com` when unset. -/
def registryBaseUrl (packageType hostname : String) : String :=
  "https://" ++ packageType ++ ".pkg."
    ++ (if hostname = "" then "github.com" else hostname) ++ "/"

/-- The hostname+organization pattern `RubyGemsProvider.Rename` builds:
`ParseUrl(hostname)` with the organization `path.Join`ed onto its path,
rendered back by `URL.String()`.  For the scheme-less hostname strings
this configuration holds, the rendered URL is the path itself; with the
hostname unset (the github.com case) `path.Join("", org)` is just the
organization. -/
def hostOrgPath (hostname org : String) : String :=
  if hostname = "" then org else hostname ++ "/" ++ org

/-- `RubyGemsProvider.Rename` on the gemspec content: first replace all
occurrences of the source hostname+organization path with the target
one, then all occurrences of the source registry base URL with the
target one. -/
def rubyGemsRename (sourceHostname targetHostname sourceOrg targetOrg : String)
    (content : List Char) : List Char :=
  replaceAll (registryBaseUrl "rubygems" sourceHostname).data
    (registryBaseUrl "rubygems" targetHostname).data
    (replaceAll (hostOrgPath sourceHostname sourceOrg).data
      (hostOrgPath targetHostname targetOrg).data content)

/-! ## ContainerProvider.Rename (internal/providers/container.go 220-294)

The docker engine client is a record of oracle functions, and every
engine call the function makes is recorded in a trace.  `recreatedShas`
is the association list from image identity (`inspect.ID`) to the
target reference already created for it. -/

inductive DockerOp where
  | inspectOp (ref : String)
  | tagOp (sourceRef targetRef : String)
  | createOp (imageRef : String) (labels : List (String × String))
  | commitOp (containerId targetRef : String) (labels : List (String × String))
  | removeOp (containerId : String)
deriving DecidableEq, Repr

structure DockerEngine where
  inspect : String → Except String (String × List (String × String))
  imageTag : String → String → Except String Unit
  containerCreate : String → List (String × String) → Except String String
  containerCommit : String → String → List (String × String) → Except String Unit

/-- Go `strings.ToLower`, character-wise (the owner, repository and
package names this is applied to are ASCII). -/
def stringToLower (s : String) : String :=
  String.mk (s.data.map Char.toLower)

/-- `ContainerProvider.GetDownloadUrl`/`GetUploadUrl` for the Rename
call sites: the fixed `ghcr.io` registry host path-joined with the
lowercased owner (`normalizeNames`) and the `name:tag` filename. -/
def containerRef (owner filename : String) : String :=
  "ghcr.io/" ++ stringToLower owner ++ "/" ++ filename

/-- Go `strings.Replace(s, pat, new, 1)`: replace only the first
occurrence (nonempty pattern); fuel as in `replaceAllFuel`. -/
def replaceOneFuel (pat new : List Char) : Nat → List Char → List Char
  | 0, s => s
  | _ + 1, [] => []
  | fuel + 1, c :: rest =>
    if pat ≠ [] ∧ pat.isPrefixOf (c :: rest) then
      new ++ (c :: rest).drop pat.length
    else
      c :: replaceOneFuel pat new fuel rest

def replaceOne (pat new s : List Char) : List Char :=
  replaceOneFuel pat new s.length s

/-- Go map read `labels[key]` (missing key yields the empty string). -/
def getLabel (labels : List (String × String)) (key : String) : String :=
  (((labels.find? (fun kv => kv.1 = key)).map Prod.snd)).getD ""

/-- Go map write `labels[key] = value` on an association list. -/
def setLabel (labels : List (String × String)) (key value : String) :
    List (String × String) :=
  if labels.any (fun kv => kv.1 = key) then
    labels.map (fun kv => if kv.1 = key then (key, value) else kv)
  else
    labels ++ [(key, value)]

/-- The label rewrite Rename performs: copy the labels and replace, in
`org.opencontainers.image.source`, the first occurrence of the source
organization by the target organization. -/
def renamedSourceLabels (sourceOrg targetOrg : String)
    (labels : List (String × String)) : List (String × String) :=
  setLabel labels "org.opencontainers.image.source"
    (String.mk (replaceOne sourceOrg.data targetOrg.data
      (getLabel labels "org.opencontainers.image.source").data))

/-- Modelled from the spec: `BaseProvider.CheckOrganizationsMatch` is
not under src/ (only its call sites are); per its call-site comment
"Skip if source and target organizations are the same" it reports
whether the configured source and target organizations are equal. -/
def checkOrganizationsMatch (sourceOrg targetOrg : String) : Bool :=
  sourceOrg == targetOrg

/-- `ContainerProvider.Rename`.  Returns the call result, the updated
`recreatedShas` cache, and the trace of docker engine calls made. -/
def containerRename (eng : DockerEngine) (shas : List (String × String))
    (sourceOrg targetOrg filename : String) :
    Except String Unit × List (String × String) × List DockerOp :=
  if checkOrganizationsMatch sourceOrg targetOrg then (.ok (), shas, [])
  else
    let sourceRef := containerRef sourceOrg filename
    let targetRef := containerRef targetOrg filename
    match eng.inspect sourceRef with
    | .error e =>
      (.error ("failed to inspect image: " ++ e), shas, [.inspectOp sourceRef])
    | .ok (imageId, labels) =>
      match shas.lookup imageId with
      | some origTargetRef =>
        match eng.imageTag origTargetRef targetRef with
        | .error e =>
          (.error e, shas, [.inspectOp sourceRef, .tagOp origTargetRef targetRef])
        | .ok _ =>
          (.ok (), shas, [.inspectOp sourceRef, .tagOp origTargetRef targetRef])
      | none =>
        let newLabels := renamedSourceLabels sourceOrg targetOrg labels
        match eng.containerCreate sourceRef newLabels with
        | .error e =>
          (.error ("failed to create container: " ++ e), shas,
            [.inspectOp sourceRef, .createOp sourceRef newLabels])
        | .ok cid =>
          match eng.containerCommit cid targetRef newLabels with
          | .error e =>
            (.error ("failed to commit container: " ++ e), shas,
              [.inspectOp sourceRef, .createOp sourceRef newLabels,
                .commitOp cid targetRef newLabels, .removeOp cid])
          | .ok _ =>
            (.ok (), (imageId, targetRef) :: shas,
              [.inspectOp sourceRef, .createOp sourceRef newLabels,
                .commitOp cid targetRef newLabels, .removeOp cid])

def isCreateOp : DockerOp → Bool
  | .createOp _ _ => true
  | _ => false

def isCommitOp : DockerOp → Bool
  | .commitOp _ _ _ => true
  | _ => false

/-- A concrete docker engine used to instantiate the cache theorem:
two tags of one image identity; create/commit/tag always succeed. -/
def twoTagEngine : DockerEngine where
  inspect := fun r =>
    if r = "ghcr.io/acme/app:v1" then .ok ("sha256:abc", [])
    else if r = "ghcr.io/acme/app:latest" then .ok ("sha256:abc", [])
    else .error "not found"
  imageTag := fun _ _ => .ok ()
  containerCreate := fun _ _ => .ok "cid1"
  containerCommit := fun _ _ _ => .ok ()

/-! ## pull.Download (src/pkg/pull/pull.go 19-76): concurrency model

The Download callback launches one goroutine per filename; each
goroutine acquires a slot of a counting semaphore of capacity 5
(`sem := make(chan struct\x7b\x7d, 5)`), calls `provider.Download`, and
either sends `failed to download {f}: {err}` on the error channel or
records the outcome via `report.IncFiles`, finally releasing its slot;
the main goroutine waits on the WaitGroup, drains the channel, and
returns nil when no error arrived, otherwise the combined error.

The goroutine interleaving is modelled as a small-step transition
system.  A task is `start`ed (semaphore slot acquired, `waiting` to
`running`) or `finish`ed (download outcome applied, slot released,
`running` to `done`); `res` is the per-filename outcome of
`provider.Download`.  The collected errors and the IncFiles records are
multisets because channel arrival order depends on scheduling. -/

inductive TaskPhase where
  | waiting
  | running
  | done
deriving DecidableEq, Repr

structure DLState where
  tasks : List (String × TaskPhase)
  semAvail : Nat
  errs : Multiset String
  incs : Multiset ResultState

def failMsg (filename err : String) : String :=
  "failed to download " ++ filename ++ ": " ++ err

def initDLState (filenames : List String) : DLState :=
  ⟨filenames.map (fun f => (f, TaskPhase.waiting)), 5, 0, 0⟩

inductive DLStep (res : String → ResultState × Option String) :
    DLState → DLState → Prop where
  | start (s : DLState) (l r : List (String × TaskPhase)) (f : String) :
      s.tasks = l ++ (f, TaskPhase.waiting) :: r →
      0 < s.semAvail →
      DLStep res s
        ⟨l ++ (f, TaskPhase.running) :: r, s.semAvail - 1, s.errs, s.incs⟩
  | finishOk (s : DLState) (l r : List (String × TaskPhase)) (f : String) :
      s.tasks = l ++ (f, TaskPhase.running) :: r →
      (res f).2 = none →
      DLStep res s
        ⟨l ++ (f, TaskPhase.done) :: r, s.semAvail + 1, s.errs,
          (res f).1 ::ₘ s.incs⟩
  | finishErr (s : DLState) (l r : List (String × TaskPhase)) (f e : String) :
      s.tasks = l ++ (f, TaskPhase.running) :: r →
      (res f).2 = some e →
      DLStep res s
        ⟨l ++ (f, TaskPhase.done) :: r, s.semAvail + 1,
          failMsg f e ::ₘ s.errs, s.incs⟩

/-- States reachable by any interleaving of the workers. -/
def DLReach (res : String → ResultState × Option String) :
    DLState → DLState → Prop :=
  Relation.ReflTransGen (DLStep res)

def runningCount (s : DLState) : Nat :=
  (s.tasks.filter (fun t => t.2 == TaskPhase.running)).length

/-- `wg.Wait()` returns exactly when every worker has finished. -/
def allDone (s : DLState) : Prop :=
  ∀ t ∈ s.tasks, t.2 = TaskPhase.done

/-- The error Download returns after the join: nil when the error
channel stayed empty, otherwise the collected errors combined. -/
def downloadResult (s : DLState) : Option (Multiset String) :=
  if s.errs = 0 then none else some s.errs

/-- The error-channel contents determined by the task list: one entry
per done task whose download failed. -/
def errsOf (res : String → ResultState × Option String)
    (tasks : List (String × TaskPhase)) : Multiset String :=
  ↑(tasks.filterMap (fun t =>
    if t.2 == TaskPhase.done then ((res t.1).2).map (failMsg t.1) else none))

/-- The IncFiles records determined by the task list: one entry per
done task whose download succeeded. -/
def incsOf (res : String → ResultState × Option String)
    (tasks : List (String × TaskPhase)) : Multiset ResultState :=
  ↑(tasks.filterMap (fun t =>
    if t.2 == TaskPhase.done && ((res t.1).2).isNone then some (res t.1).1
    else none))

/-! ## Theorems -/

/-- C1: the claim says an HTTP 409 on upload makes `Upload` return
`Skipped`.  The Maven transfer callback does classify 409 as `Skipped`,
but `uploadPackage` ends with `return Success, nil`, discarding that
classification (while still logging the "File already exists" branch):
at a 409 response with the package directory present, `Upload`
evaluates to `Success`, not `Skipped`. -/
theorem c1_maven_upload_conflict_evaluates_to_success :
    mavenUploadCallback 409 none "lib-1.0.0.jar" = (Skipped, none)
    ∧ (mavenUpload ["migration-packages/packages/acme/maven/lib/1.0.0"]
        "acme" "lib" "1.0.0" "lib-1.0.0.jar" (.ok "url") 409 none).1 = Success
    ∧ (Success : ResultState) ≠ Skipped := by
  refine ⟨by decide, by decide, by decide⟩

/-- C5: `uploadPackage` returns `Skipped` and invokes neither the
URL-generator nor the transfer callback when the local package/version
directory does not exist. -/
theorem c5_upload_skipped_when_dir_missing (fs : List String)
    (sourceOrg packageType packageName version filename : String)
    (getUrl : Except String String)
    (upload : String → String → ResultState × Option String)
    (h : fileExists fs (uploadPackageDir sourceOrg packageType packageName version filename) = false) :
    uploadPackage fs sourceOrg packageType packageName version filename getUrl upload
      = (Skipped, none, 0, 0) := by
  simp [uploadPackage, h]

theorem c5_witness :
    fileExists ([] : List String)
      (uploadPackageDir "acme" "npm" "left-pad" "1.0.0" "left-pad-1.0.0.tgz") = false
    ∧ uploadPackage [] "acme" "npm" "left-pad" "1.0.0" "left-pad-1.0.0.tgz"
        (.ok "u") (fun _ _ => (Success, none)) = (Skipped, none, 0, 0) :=
  ⟨by decide,
    c5_upload_skipped_when_dir_missing [] "acme" "npm" "left-pad" "1.0.0"
      "left-pad-1.0.0.tgz" (.ok "u") (fun _ _ => (Success, none)) (by decide)⟩

/-- C3: `downloadPackage` is idempotent: if the output file already
exists it returns `Skipped` touching neither callback (zero URL
resolutions, zero transfers) and leaving the filesystem unchanged; and
after any call that returned `Success`, a second call (with arbitrary
callbacks) returns `Skipped` with zero callback invocations. -/
theorem c3_download_idempotent (fs : List String)
    (owner packageType packageName version filename : String)
    (downloadedFilename : Option String) (mkdirOk : Bool)
    (getUrl : Except String String)
    (download : String → String → ResultState × Option String) :
    (fileExists fs (downloadOutputPath owner packageType packageName version
        downloadedFilename filename) = true →
      downloadPackage fs owner packageType packageName version filename
        downloadedFilename mkdirOk getUrl download = (Skipped, none, fs, 0, 0))
    ∧ ((downloadPackage fs owner packageType packageName version filename
          downloadedFilename mkdirOk getUrl download).1 = Success →
      ∀ (mkdirOk2 : Bool) (getUrl2 : Except String String)
        (download2 : String → String → ResultState × Option String),
        downloadPackage
          (downloadPackage fs owner packageType packageName version filename
            downloadedFilename mkdirOk getUrl download).2.2.1
          owner packageType packageName version filename downloadedFilename
          mkdirOk2 getUrl2 download2
        = (Skipped, none,
            (downloadPackage fs owner packageType packageName version filename
              downloadedFilename mkdirOk getUrl download).2.2.1, 0, 0)) := by
  constructor
  · intro h
    simp [downloadPackage, h]
  · intro hsucc mkdirOk2 getUrl2 download2
    by_cases hex : fileExists fs (downloadOutputPath owner packageType packageName
        version downloadedFilename filename) = true
    · simp [downloadPackage, hex] at hsucc
    · rw [Bool.not_eq_true] at hex
      cases hmk : mkdirOk with
      | false => simp [downloadPackage, hex, hmk] at hsucc
      | true =>
        cases hurl : getUrl with
        | error e => simp [downloadPackage, hex, hmk, hurl] at hsucc
        | ok u =>
          rcases hdl : download u (downloadOutputPath owner packageType packageName
              version downloadedFilename filename) with ⟨r, oe⟩
          cases oe with
          | some e => simp [downloadPackage, hex, hmk, hurl, hdl] at hsucc
          | none =>
            subst hmk; subst hurl
            have hr : r = Success := by
              simpa [downloadPackage, hex, hdl] using hsucc
            subst hr
            have hfs1 : (downloadPackage fs owner packageType packageName version
                filename downloadedFilename true (Except.ok u) download).2.2.1
                = downloadOutputPath owner packageType packageName version
                    downloadedFilename filename :: fs := by
              simp [downloadPackage, hex, hdl]
            rw [hfs1]
            simp [downloadPackage, fileExists]

theorem c3_witness :
    (fileExists ["migration-packages/packages/acme/npm/left-pad/1.0.0/left-pad-1.0.0.tgz"]
      (downloadOutputPath "acme" "npm" "left-pad" "1.0.0" none "left-pad-1.0.0.tgz") = true)
    ∧ downloadPackage
        ["migration-packages/packages/acme/npm/left-pad/1.0.0/left-pad-1.0.0.tgz"]
        "acme" "npm" "left-pad" "1.0.0" "left-pad-1.0.0.tgz" none true (.ok "u")
        (fun _ _ => (Success, none))
      = (Skipped, none,
          ["migration-packages/packages/acme/npm/left-pad/1.0.0/left-pad-1.0.0.tgz"],
          0, 0) :=
  ⟨by decide,
    (c3_download_idempotent
      ["migration-packages/packages/acme/npm/left-pad/1.0.0/left-pad-1.0.0.tgz"]
      "acme" "npm" "left-pad" "1.0.0" "left-pad-1.0.0.tgz" none true (.ok "u")
      (fun _ _ => (Success, none))).1 (by decide)⟩

/-! ### Counting helpers for the report roll-up -/

theorem countRS_pos_iff (x : ResultState) (l : List ResultState) :
    0 < countRS x l ↔ x ∈ l := by
  induction l with
  | nil => simp [countRS]
  | cons a t ih =>
    by_cases h : a = x
    · subst h
      simp [countRS]
    · have hne : ¬ x = a := fun hh => h hh.symm
      simp [countRS, h, hne, ih]

theorem countRS_eq_zero (x : ResultState) (l : List ResultState) (h : x ∉ l) :
    countRS x l = 0 := by
  have := (countRS_pos_iff x l).not.mpr h
  omega

theorem countRS_total (l : List ResultState) :
    countRS Success l + countRS Skipped l + countRS Failed l = l.length := by
  induction l with
  | nil => simp [countRS]
  | cons a t ih =>
    cases a <;> simp [countRS] <;> omega

/-- The delta-based classification `ProcessPackages` computes from the
report counters equals the spec's roll-up rule. -/
theorem ite_delta_rollup (baseF baseS : Nat) (rs : List ResultState) :
    (if baseF + countRS Failed rs > baseF then Failed
     else if baseS + countRS Skipped rs > baseS then Skipped
     else Success) = rollup rs := by
  by_cases hF : Failed ∈ rs
  · have h1 : baseF + countRS Failed rs > baseF := by
      have := (countRS_pos_iff Failed rs).mpr hF
      omega
    simp [rollup, hF, h1]
  · have h0 := countRS_eq_zero Failed rs hF
    by_cases hS : Skipped ∈ rs
    · have h2 : baseS + countRS Skipped rs > baseS := by
        have := (countRS_pos_iff Skipped rs).mpr hS
        omega
      simp [rollup, hF, hS, h0, h2]
    · have h3 := countRS_eq_zero Skipped rs hS
      simp [rollup, hF, hS, h0, h3]

theorem foldl_IncFiles_spec (rs : List ResultState) (r : Report) :
    (rs.foldl Report.IncFiles r).FilesFailed = r.FilesFailed + countRS Failed rs
    ∧ (rs.foldl Report.IncFiles r).FilesSkipped = r.FilesSkipped + countRS Skipped rs
    ∧ (rs.foldl Report.IncFiles r).VersionsFailed = r.VersionsFailed
    ∧ (rs.foldl Report.IncFiles r).VersionsSkipped = r.VersionsSkipped
    ∧ (rs.foldl Report.IncFiles r).VersionSuccess = r.VersionSuccess := by
  induction rs generalizing r with
  | nil => simp [countRS]
  | cons a t ih =>
    cases a <;>
      simp [Report.IncFiles, countRS, ih] <;> omega

theorem IncVersions_counts (r : Report) (x : ResultState) :
    (r.IncVersions x).VersionsFailed = r.VersionsFailed + (if x = Failed then 1 else 0)
    ∧ (r.IncVersions x).VersionsSkipped = r.VersionsSkipped + (if x = Skipped then 1 else 0)
    ∧ (r.IncVersions x).VersionSuccess = r.VersionSuccess + (if x = Success then 1 else 0) := by
  cases x <;> simp [Report.IncVersions]

/-! ### The version loop of ProcessPackages -/

theorem processVersionsGo_spec (fn : ProcessFn) (packages : List (List String))
    (owner repository packageType packageName : String)
    (hfn : ∀ o r p n v fns, (fn o r p n v fns).2 = none)
    (versions : List String) :
    ∀ report : Report,
      (processVersionsGo fn packages owner repository packageType packageName
        versions report).2.2 = none
    ∧ (processVersionsGo fn packages owner repository packageType packageName
        versions report).2.1.map VersionRec.version = versions
    ∧ (∀ vr ∈ (processVersionsGo fn packages owner repository packageType packageName
          versions report).2.1, vr.vstate = rollup vr.fileResults)
    ∧ (processVersionsGo fn packages owner repository packageType packageName
        versions report).1.VersionsFailed
        = report.VersionsFailed + countRS Failed
            ((processVersionsGo fn packages owner repository packageType packageName
              versions report).2.1.map VersionRec.vstate)
    ∧ (processVersionsGo fn packages owner repository packageType packageName
        versions report).1.VersionsSkipped
        = report.VersionsSkipped + countRS Skipped
            ((processVersionsGo fn packages owner repository packageType packageName
              versions report).2.1.map VersionRec.vstate)
    ∧ (processVersionsGo fn packages owner repository packageType packageName
        versions report).1.VersionSuccess
        = report.VersionSuccess + countRS Success
            ((processVersionsGo fn packages owner repository packageType packageName
              versions report).2.1.map VersionRec.vstate) := by
  induction versions with
  | nil =>
    intro report
    simp [processVersionsGo, countRS]
  | cons v rest ih =>
    intro report
    simp only [processVersionsGo, hfn]
    have hfold := foldl_IncFiles_spec
      (fn owner repository packageType packageName v
        (getFlatListOfColumn packages [(0, owner), (1, repository), (2, packageType),
          (3, packageName), (4, v)] 5)).1 report
    obtain ⟨hf1, hf2, hf3, hf4, hf5⟩ := hfold
    rw [hf1, hf2]
    rw [ite_delta_rollup]
    obtain ⟨ih1, ih2, ih3, ih4, ih5, ih6⟩ := ih _
    refine ⟨ih1, ?_, ?_, ?_, ?_, ?_⟩
    · simp [ih2]
    · intro vr hvr
      rcases List.mem_cons.mp hvr with h | h
      · subst h
        rfl
      · exact ih3 vr h
    · simp only [List.map_cons, countRS, ih4]
      obtain ⟨iv1, iv2, iv3⟩ := IncVersions_counts
        ((fn owner repository packageType packageName v
          (getFlatListOfColumn packages [(0, owner), (1, repository), (2, packageType),
            (3, packageName), (4, v)] 5)).1.foldl Report.IncFiles report)
        (rollup (fn owner repository packageType packageName v
          (getFlatListOfColumn packages [(0, owner), (1, repository), (2, packageType),
            (3, packageName), (4, v)] 5)).1)
      rw [iv1, hf3]
      omega
    · simp only [List.map_cons, countRS, ih5]
      obtain ⟨iv1, iv2, iv3⟩ := IncVersions_counts
        ((fn owner repository packageType packageName v
          (getFlatListOfColumn packages [(0, owner), (1, repository), (2, packageType),
            (3, packageName), (4, v)] 5)).1.foldl Report.IncFiles report)
        (rollup (fn owner repository packageType packageName v
          (getFlatListOfColumn packages [(0, owner), (1, repository), (2, packageType),
            (3, packageName), (4, v)] 5)).1)
      rw [iv2, hf4]
      omega
    · simp only [List.map_cons, countRS, ih6]
      obtain ⟨iv1, iv2, iv3⟩ := IncVersions_counts
        ((fn owner repository packageType packageName v
          (getFlatListOfColumn packages [(0, owner), (1, repository), (2, packageType),
            (3, packageName), (4, v)] 5)).1.foldl Report.IncFiles report)
        (rollup (fn owner repository packageType packageName v
          (getFlatListOfColumn packages [(0, owner), (1, repository), (2, packageType),
            (3, packageName), (4, v)] 5)).1)
      rw [iv3, hf5]
      omega

theorem IncPackages_version_counts (r : Report) (x : ResultState) :
    (r.IncPackages x).VersionsFailed = r.VersionsFailed
    ∧ (r.IncPackages x).VersionsSkipped = r.VersionsSkipped
    ∧ (r.IncPackages x).VersionSuccess = r.VersionSuccess := by
  cases x <;> simp [Report.IncPackages] <;> split <;> simp

theorem IncPackages_package_total (r : Report) (x : ResultState) :
    (r.IncPackages x).PackageSuccess + (r.IncPackages x).PackagesSkipped
      + (r.IncPackages x).PackagesFailed
    = r.PackageSuccess + r.PackagesSkipped + r.PackagesFailed + 1 := by
  cases x with
  | Success =>
    simp only [Report.IncPackages]
    split <;> simp <;> omega
  | Skipped =>
    simp [Report.IncPackages]
    omega
  | Failed =>
    simp [Report.IncPackages]
    omega

/-! ### Properties of one group body -/

theorem processGroup_spec (fn : ProcessFn) (packages : List (List String))
    (pkg : List String) (report : Report)
    (hfn : ∀ o r p n v fns, (fn o r p n v fns).2 = none) :
    (processGroup fn packages pkg report).2.2 = none
    ∧ (processGroup fn packages pkg report).2.1.owner = pkg.getD 0 ""
    ∧ (processGroup fn packages pkg report).2.1.repository = pkg.getD 1 ""
    ∧ (processGroup fn packages pkg report).2.1.packageType = pkg.getD 2 ""
    ∧ (processGroup fn packages pkg report).2.1.packageName = pkg.getD 3 ""
    ∧ (processGroup fn packages pkg report).2.1.versionRecs.map VersionRec.version
        = (groupVersions packages pkg).reverse
    ∧ (∀ vr ∈ (processGroup fn packages pkg report).2.1.versionRecs,
        vr.vstate = rollup vr.fileResults)
    ∧ (processGroup fn packages pkg report).2.1.pstate
        = some (rollup ((processGroup fn packages pkg report).2.1.versionRecs.map
            VersionRec.vstate))
    ∧ (processGroup fn packages pkg report).1.VersionSuccess
        + (processGroup fn packages pkg report).1.VersionsSkipped
        + (processGroup fn packages pkg report).1.VersionsFailed
      = report.VersionSuccess + report.VersionsSkipped + report.VersionsFailed
        + (processGroup fn packages pkg report).2.1.versionRecs.length := by
  have hspec := processVersionsGo_spec fn packages (pkg.getD 0 "") (pkg.getD 1 "")
    (pkg.getD 2 "") (pkg.getD 3 "") hfn ((groupVersions packages pkg).reverse)
    { report with currentPackageType := pkg.getD 2 "" }
  obtain ⟨hs1, hs2, hs3, hs4, hs5, hs6⟩ := hspec
  have hip := IncPackages_version_counts
  simp only [processGroup, hs1]
  refine ⟨trivial, trivial, trivial, trivial, trivial, hs2, hs3, ?_, ?_⟩
  · rw [hs4, hs5]
    simp only [ite_delta_rollup]
  · obtain ⟨hv1, hv2, hv3⟩ := hip
      (processVersionsGo fn packages (pkg.getD 0 "") (pkg.getD 1 "") (pkg.getD 2 "")
        (pkg.getD 3 "") ((groupVersions packages pkg).reverse)
        { report with currentPackageType := pkg.getD 2 "" }).1
      (if (processVersionsGo fn packages (pkg.getD 0 "") (pkg.getD 1 "")
            (pkg.getD 2 "") (pkg.getD 3 "") ((groupVersions packages pkg).reverse)
            { report with currentPackageType := pkg.getD 2 "" }).1.VersionsFailed
          > report.VersionsFailed then Failed
        else if (processVersionsGo fn packages (pkg.getD 0 "") (pkg.getD 1 "")
            (pkg.getD 2 "") (pkg.getD 3 "") ((groupVersions packages pkg).reverse)
            { report with currentPackageType := pkg.getD 2 "" }).1.VersionsSkipped
          > report.VersionsSkipped then Skipped
        else Success)
    rw [hv1, hv2, hv3, hs4, hs5, hs6]
    have htot := countRS_total
      ((processVersionsGo fn packages (pkg.getD 0 "") (pkg.getD 1 "") (pkg.getD 2 "")
        (pkg.getD 3 "") ((groupVersions packages pkg).reverse)
        { report with currentPackageType := pkg.getD 2 "" }).2.1.map VersionRec.vstate)
    simp only [List.length_map] at htot
    simp only []
    omega

/-! ### Step equations for the group loop -/

theorem processGroupsGo_cons_filter (fn : ProcessFn) (packages : List (List String))
    (desired : String) (b : Bool) (pe : String → String → Except String Bool)
    (connect : String → Option String) (pkg : List String)
    (rest : List (List String)) (provType : Option String) (report : Report)
    (h : desired ≠ "" ∧ pkg.getD 2 "" ≠ desired) :
    processGroupsGo fn packages desired b pe connect (pkg :: rest) provType report
      = processGroupsGo fn packages desired b pe connect rest provType report := by
  simp only [processGroupsGo]
  rw [if_pos h]

theorem processGroupsGo_cons_unsupported (fn : ProcessFn)
    (packages : List (List String)) (desired : String) (b : Bool)
    (pe : String → String → Except String Bool) (connect : String → Option String)
    (pkg : List String) (rest : List (List String)) (provType : Option String)
    (report : Report)
    (h1 : ¬ (desired ≠ "" ∧ pkg.getD 2 "" ≠ desired))
    (h2 : provType ≠ some (pkg.getD 2 "") ∧ pkg.getD 2 "" ∉ supportedPackageTypes) :
    processGroupsGo fn packages desired b pe connect (pkg :: rest) provType report
      = (report, [], some ("provider not found: " ++ pkg.getD 2 "")) := by
  simp only [processGroupsGo]
  rw [if_neg h1, if_pos h2]

theorem processGroupsGo_cons_connect_err (fn : ProcessFn)
    (packages : List (List String)) (desired : String) (b : Bool)
    (pe : String → String → Except String Bool) (connect : String → Option String)
    (pkg : List String) (rest : List (List String)) (provType : Option String)
    (report : Report) (e : String)
    (h1 : ¬ (desired ≠ "" ∧ pkg.getD 2 "" ≠ desired))
    (h2 : ¬ (provType ≠ some (pkg.getD 2 "") ∧ pkg.getD 2 "" ∉ supportedPackageTypes))
    (h3 : (if provType ≠ some (pkg.getD 2 "") then connect (pkg.getD 2 "") else none)
      = some e) :
    processGroupsGo fn packages desired b pe connect (pkg :: rest) provType report
      = (report, [], some e) := by
  simp only [processGroupsGo]
  rw [if_neg h1, if_neg h2, h3]

theorem processGroupsGo_cons_main (fn : ProcessFn) (packages : List (List String))
    (desired : String) (b : Bool) (pe : String → String → Except String Bool)
    (connect : String → Option String) (pkg : List String)
    (rest : List (List String)) (provType : Option String) (report : Report)
    (h1 : ¬ (desired ≠ "" ∧ pkg.getD 2 "" ≠ desired))
    (h2 : ¬ (provType ≠ some (pkg.getD 2 "") ∧ pkg.getD 2 "" ∉ supportedPackageTypes))
    (h3 : (if provType ≠ some (pkg.getD 2 "") then connect (pkg.getD 2 "") else none)
      = none)
    (h4 : (if b then some (pe (pkg.getD 3 "") (pkg.getD 2 "")) else none) = none
        ∨ (if b then some (pe (pkg.getD 3 "") (pkg.getD 2 "")) else none)
          = some (.ok false))
    (h5 : (processGroup fn packages pkg report).2.2 = none) :
    processGroupsGo fn packages desired b pe connect (pkg :: rest) provType report
      = ((processGroupsGo fn packages desired b pe connect rest
            (some (pkg.getD 2 "")) (processGroup fn packages pkg report).1).1,
          (processGroup fn packages pkg report).2.1
            :: (processGroupsGo fn packages desired b pe connect rest
              (some (pkg.getD 2 "")) (processGroup fn packages pkg report).1).2.1,
          (processGroupsGo fn packages desired b pe connect rest
            (some (pkg.getD 2 "")) (processGroup fn packages pkg report).1).2.2) := by
  rcases h4 with h4 | h4 <;>
    · simp only [processGroupsGo]
      rw [if_neg h1, if_neg h2, h3, h4, h5]

/-! ### The group loop, download path (no pre-check) -/

theorem processGroupsGo_main_spec (fn : ProcessFn) (packages : List (List String))
    (desired : String) (pe : String → String → Except String Bool)
    (connect : String → Option String)
    (hfn : ∀ o r p n v fns, (fn o r p n v fns).2 = none) :
    ∀ (groups : List (List String)) (provType : Option String) (report : Report),
      (∀ g ∈ (processGroupsGo fn packages desired false pe connect groups provType
          report).2.1,
        g.versionRecs.map VersionRec.version
          = (getFlatListOfColumn packages [(0, g.owner), (1, g.repository),
              (2, g.packageType), (3, g.packageName)] 4).reverse
        ∧ (∀ vr ∈ g.versionRecs, vr.vstate = rollup vr.fileResults)
        ∧ g.pstate = some (rollup (g.versionRecs.map VersionRec.vstate)))
      ∧ (processGroupsGo fn packages desired false pe connect groups provType
            report).1.VersionSuccess
        + (processGroupsGo fn packages desired false pe connect groups provType
            report).1.VersionsSkipped
        + (processGroupsGo fn packages desired false pe connect groups provType
            report).1.VersionsFailed
        = report.VersionSuccess + report.VersionsSkipped + report.VersionsFailed
          + ((processGroupsGo fn packages desired false pe connect groups provType
              report).2.1.map (fun g => g.versionRecs.length)).sum := by
  intro groups
  induction groups with
  | nil =>
    intro provType report
    simp [processGroupsGo]
  | cons pkg rest ih =>
    intro provType report
    by_cases h1 : desired ≠ "" ∧ pkg.getD 2 "" ≠ desired
    · rw [processGroupsGo_cons_filter fn packages desired false pe connect pkg rest
        provType report h1]
      exact ih provType report
    · by_cases h2 : provType ≠ some (pkg.getD 2 "")
          ∧ pkg.getD 2 "" ∉ supportedPackageTypes
      · rw [processGroupsGo_cons_unsupported fn packages desired false pe connect pkg
          rest provType report h1 h2]
        simp
      · cases h3 : (if provType ≠ some (pkg.getD 2 "") then connect (pkg.getD 2 "")
            else none) with
        | some e =>
          rw [processGroupsGo_cons_connect_err fn packages desired false pe connect
            pkg rest provType report e h1 h2 h3]
          simp
        | none =>
          obtain ⟨hg1, hg2, hg3, hg4, hg5, hg6, hg7, hg8, hg9⟩ :=
            processGroup_spec fn packages pkg report hfn
          rw [processGroupsGo_cons_main fn packages desired false pe connect pkg rest
            provType report h1 h2 h3 (Or.inl rfl) hg1]
          obtain ⟨ihA, ihB⟩ := ih (some (pkg.getD 2 ""))
            (processGroup fn packages pkg report).1
          constructor
          · intro g hg
            rcases List.mem_cons.mp hg with h | h
            · subst h
              rw [hg2, hg3, hg4, hg5]
              exact ⟨hg6, hg7, hg8⟩
            · exact ihA g h
          · simp only [List.map_cons, List.sum_cons]
            omega

/-! ### Uniqueness of the group list -/

theorem getListOfUniqueEntriesGo_keys (cols : List Nat) (data : List (List String)) :
    ∀ seen : List String,
      ((getListOfUniqueEntriesGo cols data seen).map joinColon).Nodup
      ∧ ∀ e ∈ getListOfUniqueEntriesGo cols data seen, joinColon e ∉ seen := by
  induction data with
  | nil =>
    intro seen
    simp [getListOfUniqueEntriesGo]
  | cons r rs ih =>
    intro seen
    by_cases h : seen.contains (joinColon (cols.map (fun c => r.getD c ""))) = true
    · have hred : getListOfUniqueEntriesGo cols (r :: rs) seen
          = getListOfUniqueEntriesGo cols rs seen := by
        simp only [getListOfUniqueEntriesGo]
        rw [if_pos h]
      rw [hred]
      exact ih seen
    · have hrec := ih (joinColon (cols.map (fun c => r.getD c "")) :: seen)
      have hred : getListOfUniqueEntriesGo cols (r :: rs) seen
          = (cols.map (fun c => r.getD c ""))
            :: getListOfUniqueEntriesGo cols rs
              (joinColon (cols.map (fun c => r.getD c "")) :: seen) := by
        simp only [getListOfUniqueEntriesGo]
        rw [if_neg h]
      rw [hred]
      constructor
      · simp only [List.map_cons, List.nodup_cons]
        refine ⟨?_, hrec.1⟩
        intro hmem
        rcases List.mem_map.mp hmem with ⟨e, he, hkey⟩
        exact hrec.2 e he (hkey ▸ List.mem_cons_self _ _)
      · intro e he
        rcases List.mem_cons.mp he with h1 | h1
        · subst h1
          simpa using h
        · intro hmem
          exact hrec.2 e h1 (List.mem_cons_of_mem _ hmem)

theorem getListOfUniqueEntriesGo_shape (data : List (List String)) :
    ∀ seen : List String, ∀ e ∈ getListOfUniqueEntriesGo [0, 1, 2, 3] data seen,
      e = [e.getD 0 "", e.getD 1 "", e.getD 2 "", e.getD 3 ""] := by
  induction data with
  | nil =>
    intro seen e he
    simp [getListOfUniqueEntriesGo] at he
  | cons r rs ih =>
    intro seen e he
    by_cases h : seen.contains (joinColon ([0, 1, 2, 3].map (fun c => r.getD c ""))) = true
    · have hred : getListOfUniqueEntriesGo [0, 1, 2, 3] (r :: rs) seen
          = getListOfUniqueEntriesGo [0, 1, 2, 3] rs seen := by
        simp only [getListOfUniqueEntriesGo]
        rw [if_pos h]
      exact ih _ e (hred ▸ he)
    · have hred : getListOfUniqueEntriesGo [0, 1, 2, 3] (r :: rs) seen
          = ([0, 1, 2, 3].map (fun c => r.getD c ""))
            :: getListOfUniqueEntriesGo [0, 1, 2, 3] rs
              (joinColon ([0, 1, 2, 3].map (fun c => r.getD c "")) :: seen) := by
        simp only [getListOfUniqueEntriesGo]
        rw [if_neg h]
      rcases List.mem_cons.mp (hred ▸ he) with h1 | h1
      · subst h1
        simp
      · exact ih _ e h1

/-! ### GroupRec fields come from the processed group row -/

theorem processGroup_fields (fn : ProcessFn) (packages : List (List String))
    (pkg : List String) (report : Report) :
    (processGroup fn packages pkg report).2.1.owner = pkg.getD 0 ""
    ∧ (processGroup fn packages pkg report).2.1.repository = pkg.getD 1 ""
    ∧ (processGroup fn packages pkg report).2.1.packageType = pkg.getD 2 ""
    ∧ (processGroup fn packages pkg report).2.1.packageName = pkg.getD 3 "" := by
  simp only [processGroup]
  split <;> simp

/-- Package counters are untouched by the version loop. -/
theorem processVersionsGo_package_counts (fn : ProcessFn)
    (packages : List (List String)) (owner repository packageType packageName : String)
    (versions : List String) :
    ∀ report : Report,
      (processVersionsGo fn packages owner repository packageType packageName
        versions report).1.PackageSuccess = report.PackageSuccess
      ∧ (processVersionsGo fn packages owner repository packageType packageName
          versions report).1.PackagesSkipped = report.PackagesSkipped
      ∧ (processVersionsGo fn packages owner repository packageType packageName
          versions report).1.PackagesFailed = report.PackagesFailed := by
  induction versions with
  | nil =>
    intro report
    simp [processVersionsGo]
  | cons v rest ih =>
    intro report
    simp only [processVersionsGo]
    have hfold : ∀ (rs : List ResultState) (r : Report),
        (rs.foldl Report.IncFiles r).PackageSuccess = r.PackageSuccess
        ∧ (rs.foldl Report.IncFiles r).PackagesSkipped = r.PackagesSkipped
        ∧ (rs.foldl Report.IncFiles r).PackagesFailed = r.PackagesFailed := by
      intro rs
      induction rs with
      | nil => intro r; simp
      | cons a t iha =>
        intro r
        cases a <;> simp [Report.IncFiles, iha]
    have hinc : ∀ (r : Report) (x : ResultState),
        (r.IncVersions x).PackageSuccess = r.PackageSuccess
        ∧ (r.IncVersions x).PackagesSkipped = r.PackagesSkipped
        ∧ (r.IncVersions x).PackagesFailed = r.PackagesFailed := by
      intro r x
      cases x <;> simp [Report.IncVersions]
    cases hcb : (fn owner repository packageType packageName v
        (getFlatListOfColumn packages [(0, owner), (1, repository), (2, packageType),
          (3, packageName), (4, v)] 5)).2 with
    | some e =>
      simp only [hcb]
      obtain ⟨a1, a2, a3⟩ := hinc
        ((fn owner repository packageType packageName v
          (getFlatListOfColumn packages [(0, owner), (1, repository), (2, packageType),
            (3, packageName), (4, v)] 5)).1.foldl Report.IncFiles report) _
      obtain ⟨b1, b2, b3⟩ := hfold
        (fn owner repository packageType packageName v
          (getFlatListOfColumn packages [(0, owner), (1, repository), (2, packageType),
            (3, packageName), (4, v)] 5)).1 report
      exact ⟨by rw [a1, b1], by rw [a2, b2], by rw [a3, b3]⟩
    | none =>
      simp only [hcb]
      obtain ⟨c1, c2, c3⟩ := ih
        (((fn owner repository packageType packageName v
          (getFlatListOfColumn packages [(0, owner), (1, repository), (2, packageType),
            (3, packageName), (4, v)] 5)).1.foldl Report.IncFiles report).IncVersions _)
      obtain ⟨a1, a2, a3⟩ := hinc
        ((fn owner repository packageType packageName v
          (getFlatListOfColumn packages [(0, owner), (1, repository), (2, packageType),
            (3, packageName), (4, v)] 5)).1.foldl Report.IncFiles report) _
      obtain ⟨b1, b2, b3⟩ := hfold
        (fn owner repository packageType packageName v
          (getFlatListOfColumn packages [(0, owner), (1, repository), (2, packageType),
            (3, packageName), (4, v)] 5)).1 report
      exact ⟨by rw [c1, a1, b1], by rw [c2, a2, b2], by rw [c3, a3, b3]⟩

theorem processGroupsGo_cons_pre_err (fn : ProcessFn)
    (packages : List (List String)) (desired : String) (b : Bool)
    (pe : String → String → Except String Bool) (connect : String → Option String)
    (pkg : List String) (rest : List (List String)) (provType : Option String)
    (report : Report) (e : String)
    (h1 : ¬ (desired ≠ "" ∧ pkg.getD 2 "" ≠ desired))
    (h2 : ¬ (provType ≠ some (pkg.getD 2 "") ∧ pkg.getD 2 "" ∉ supportedPackageTypes))
    (h3 : (if provType ≠ some (pkg.getD 2 "") then connect (pkg.getD 2 "") else none)
      = none)
    (h4 : (if b then some (pe (pkg.getD 3 "") (pkg.getD 2 "")) else none)
      = some (.error e)) :
    processGroupsGo fn packages desired b pe connect (pkg :: rest) provType report
      = (report.IncPackages Failed,
          [⟨pkg.getD 0 "", pkg.getD 1 "", pkg.getD 2 "", pkg.getD 3 "", [], some Failed⟩],
          some e) := by
  simp only [processGroupsGo]
  rw [if_neg h1, if_neg h2, h3, h4]

theorem processGroupsGo_cons_pre_skip (fn : ProcessFn)
    (packages : List (List String)) (desired : String) (b : Bool)
    (pe : String → String → Except String Bool) (connect : String → Option String)
    (pkg : List String) (rest : List (List String)) (provType : Option String)
    (report : Report)
    (h1 : ¬ (desired ≠ "" ∧ pkg.getD 2 "" ≠ desired))
    (h2 : ¬ (provType ≠ some (pkg.getD 2 "") ∧ pkg.getD 2 "" ∉ supportedPackageTypes))
    (h3 : (if provType ≠ some (pkg.getD 2 "") then connect (pkg.getD 2 "") else none)
      = none)
    (h4 : (if b then some (pe (pkg.getD 3 "") (pkg.getD 2 "")) else none)
      = some (.ok true)) :
    processGroupsGo fn packages desired b pe connect (pkg :: rest) provType report
      = ((processGroupsGo fn packages desired b pe connect rest
            (some (pkg.getD 2 "")) (report.IncPackages Skipped)).1,
          ⟨pkg.getD 0 "", pkg.getD 1 "", pkg.getD 2 "", pkg.getD 3 "", [], some Skipped⟩
            :: (processGroupsGo fn packages desired b pe connect rest
              (some (pkg.getD 2 "")) (report.IncPackages Skipped)).2.1,
          (processGroupsGo fn packages desired b pe connect rest
            (some (pkg.getD 2 "")) (report.IncPackages Skipped)).2.2) := by
  simp only [processGroupsGo]
  rw [if_neg h1, if_neg h2, h3, h4]

theorem processGroupsGo_cons_main_err (fn : ProcessFn)
    (packages : List (List String)) (desired : String) (b : Bool)
    (pe : String → String → Except String Bool) (connect : String → Option String)
    (pkg : List String) (rest : List (List String)) (provType : Option String)
    (report : Report) (e : String)
    (h1 : ¬ (desired ≠ "" ∧ pkg.getD 2 "" ≠ desired))
    (h2 : ¬ (provType ≠ some (pkg.getD 2 "") ∧ pkg.getD 2 "" ∉ supportedPackageTypes))
    (h3 : (if provType ≠ some (pkg.getD 2 "") then connect (pkg.getD 2 "") else none)
      = none)
    (h4 : (if b then some (pe (pkg.getD 3 "") (pkg.getD 2 "")) else none) = none
        ∨ (if b then some (pe (pkg.getD 3 "") (pkg.getD 2 "")) else none)
          = some (.ok false))
    (h5 : (processGroup fn packages pkg report).2.2 = some e) :
    processGroupsGo fn packages desired b pe connect (pkg :: rest) provType report
      = ((processGroup fn packages pkg report).1,
          [(processGroup fn packages pkg report).2.1], some e) := by
  rcases h4 with h4 | h4 <;>
    · simp only [processGroupsGo]
      rw [if_neg h1, if_neg h2, h3, h4, h5]

/-! ### Trace entries come only from the iterated group list -/

theorem processGroupsGo_keys (fn : ProcessFn) (packages : List (List String))
    (desired : String) (b : Bool) (pe : String → String → Except String Bool)
    (connect : String → Option String) :
    ∀ (groups : List (List String)) (provType : Option String) (report : Report),
      ∀ g ∈ (processGroupsGo fn packages desired b pe connect groups provType
          report).2.1,
        ∃ pkg ∈ groups, g.owner = pkg.getD 0 "" ∧ g.repository = pkg.getD 1 ""
          ∧ g.packageType = pkg.getD 2 "" ∧ g.packageName = pkg.getD 3 "" := by
  intro groups
  induction groups with
  | nil =>
    intro provType report g hg
    simp [processGroupsGo] at hg
  | cons pkg rest ih =>
    intro provType report g hg
    by_cases h1 : desired ≠ "" ∧ pkg.getD 2 "" ≠ desired
    · rw [processGroupsGo_cons_filter fn packages desired b pe connect pkg rest
        provType report h1] at hg
      rcases ih provType report g hg with ⟨p, hp, hf⟩
      exact ⟨p, List.mem_cons_of_mem _ hp, hf⟩
    · by_cases h2 : provType ≠ some (pkg.getD 2 "")
          ∧ pkg.getD 2 "" ∉ supportedPackageTypes
      · rw [processGroupsGo_cons_unsupported fn packages desired b pe connect pkg
          rest provType report h1 h2] at hg
        simp at hg
      · cases h3 : (if provType ≠ some (pkg.getD 2 "") then connect (pkg.getD 2 "")
            else none) with
        | some e =>
          rw [processGroupsGo_cons_connect_err fn packages desired b pe connect pkg
            rest provType report e h1 h2 h3] at hg
          simp at hg
        | none =>
          have hmain : ∀ h4 : (if b then some (pe (pkg.getD 3 "") (pkg.getD 2 ""))
                else none) = none
              ∨ (if b then some (pe (pkg.getD 3 "") (pkg.getD 2 "")) else none)
                = some (.ok false),
              ∃ p ∈ pkg :: rest, g.owner = p.getD 0 "" ∧ g.repository = p.getD 1 ""
                ∧ g.packageType = p.getD 2 "" ∧ g.packageName = p.getD 3 "" := by
            intro h4
            cases h5 : (processGroup fn packages pkg report).2.2 with
            | some e =>
              rw [processGroupsGo_cons_main_err fn packages desired b pe connect pkg
                rest provType report e h1 h2 h3 h4 h5] at hg
              simp only [List.mem_singleton] at hg
              subst hg
              exact ⟨pkg, List.mem_cons_self _ _,
                processGroup_fields fn packages pkg report⟩
            | none =>
              rw [processGroupsGo_cons_main fn packages desired b pe connect pkg rest
                provType report h1 h2 h3 h4 h5] at hg
              rcases List.mem_cons.mp hg with h | h
              · subst h
                exact ⟨pkg, List.mem_cons_self _ _,
                  processGroup_fields fn packages pkg report⟩
              · rcases ih (some (pkg.getD 2 ""))
                  (processGroup fn packages pkg report).1 g h with ⟨p, hp, hf⟩
                exact ⟨p, List.mem_cons_of_mem _ hp, hf⟩
          cases h4 : (if b then some (pe (pkg.getD 3 "") (pkg.getD 2 "")) else none) with
          | none => exact hmain (Or.inl h4)
          | some x =>
            cases x with
            | error e =>
              rw [processGroupsGo_cons_pre_err fn packages desired b pe connect pkg
                rest provType report e h1 h2 h3 h4] at hg
              simp only [List.mem_singleton] at hg
              subst hg
              exact ⟨pkg, List.mem_cons_self _ _, rfl, rfl, rfl, rfl⟩
            | ok bb =>
              cases bb with
              | false => exact hmain (Or.inr h4)
              | true =>
                rw [processGroupsGo_cons_pre_skip fn packages desired b pe connect
                  pkg rest provType report h1 h2 h3 h4] at hg
                rcases List.mem_cons.mp hg with h | h
                · subst h
                  exact ⟨pkg, List.mem_cons_self _ _, rfl, rfl, rfl, rfl⟩
                · rcases ih (some (pkg.getD 2 ""))
                    (report.IncPackages Skipped) g h with ⟨p, hp, hf⟩
                  exact ⟨p, List.mem_cons_of_mem _ hp, hf⟩

/-! ### Every package-level increment corresponds to one trace entry -/

theorem processGroup_package_total (fn : ProcessFn) (packages : List (List String))
    (pkg : List String) (report : Report) :
    ((processGroup fn packages pkg report).2.2 = none →
      (processGroup fn packages pkg report).1.PackageSuccess
        + (processGroup fn packages pkg report).1.PackagesSkipped
        + (processGroup fn packages pkg report).1.PackagesFailed
      = report.PackageSuccess + report.PackagesSkipped + report.PackagesFailed + 1
      ∧ (processGroup fn packages pkg report).2.1.pstate.isSome = true)
    ∧ ((processGroup fn packages pkg report).2.2 ≠ none →
      (processGroup fn packages pkg report).1.PackageSuccess
        + (processGroup fn packages pkg report).1.PackagesSkipped
        + (processGroup fn packages pkg report).1.PackagesFailed
      = report.PackageSuccess + report.PackagesSkipped + report.PackagesFailed
      ∧ (processGroup fn packages pkg report).2.1.pstate = none) := by
  obtain ⟨hq1, hq2, hq3⟩ := processVersionsGo_package_counts fn packages
    (pkg.getD 0 "") (pkg.getD 1 "") (pkg.getD 2 "") (pkg.getD 3 "")
    ((groupVersions packages pkg).reverse)
    { report with currentPackageType := pkg.getD 2 "" }
  simp only [processGroup]
  split
  · constructor
    · intro h
      simp at h
    · intro _
      refine ⟨?_, rfl⟩
      simp only []
      rw [hq1, hq2, hq3]
  · constructor
    · intro _
      refine ⟨?_, rfl⟩
      have hip := IncPackages_package_total
        (processVersionsGo fn packages (pkg.getD 0 "") (pkg.getD 1 "")
          (pkg.getD 2 "") (pkg.getD 3 "") ((groupVersions packages pkg).reverse)
          { report with currentPackageType := pkg.getD 2 "" }).1
        (if (processVersionsGo fn packages (pkg.getD 0 "") (pkg.getD 1 "")
              (pkg.getD 2 "") (pkg.getD 3 "") ((groupVersions packages pkg).reverse)
              { report with currentPackageType := pkg.getD 2 "" }).1.VersionsFailed
            > report.VersionsFailed then Failed
          else if (processVersionsGo fn packages (pkg.getD 0 "") (pkg.getD 1 "")
              (pkg.getD 2 "") (pkg.getD 3 "") ((groupVersions packages pkg).reverse)
              { report with currentPackageType := pkg.getD 2 "" }).1.VersionsSkipped
            > report.VersionsSkipped then Skipped
          else Success)
      have ha1 : (processVersionsGo fn packages (pkg.getD 0 "") (pkg.getD 1 "")
          (pkg.getD 2 "") (pkg.getD 3 "") ((groupVersions packages pkg).reverse)
          { report with currentPackageType := pkg.getD 2 "" }).1.PackageSuccess
          = report.PackageSuccess := by rw [hq1]
      have ha2 : (processVersionsGo fn packages (pkg.getD 0 "") (pkg.getD 1 "")
          (pkg.getD 2 "") (pkg.getD 3 "") ((groupVersions packages pkg).reverse)
          { report with currentPackageType := pkg.getD 2 "" }).1.PackagesSkipped
          = report.PackagesSkipped := by rw [hq2]
      have ha3 : (processVersionsGo fn packages (pkg.getD 0 "") (pkg.getD 1 "")
          (pkg.getD 2 "") (pkg.getD 3 "") ((groupVersions packages pkg).reverse)
          { report with currentPackageType := pkg.getD 2 "" }).1.PackagesFailed
          = report.PackagesFailed := by rw [hq3]
      dsimp only
      omega
    · intro h
      simp at h

theorem processGroupsGo_package_total (fn : ProcessFn)
    (packages : List (List String)) (desired : String) (b : Bool)
    (pe : String → String → Except String Bool) (connect : String → Option String) :
    ∀ (groups : List (List String)) (provType : Option String) (report : Report),
      (processGroupsGo fn packages desired b pe connect groups provType
          report).1.PackageSuccess
      + (processGroupsGo fn packages desired b pe connect groups provType
          report).1.PackagesSkipped
      + (processGroupsGo fn packages desired b pe connect groups provType
          report).1.PackagesFailed
      = report.PackageSuccess + report.PackagesSkipped + report.PackagesFailed
        + ((processGroupsGo fn packages desired b pe connect groups provType
            report).2.1.filter (fun g => g.pstate.isSome)).length := by
  intro groups
  induction groups with
  | nil =>
    intro provType report
    simp [processGroupsGo]
  | cons pkg rest ih =>
    intro provType report
    by_cases h1 : desired ≠ "" ∧ pkg.getD 2 "" ≠ desired
    · rw [processGroupsGo_cons_filter fn packages desired b pe connect pkg rest
        provType report h1]
      exact ih provType report
    · by_cases h2 : provType ≠ some (pkg.getD 2 "")
          ∧ pkg.getD 2 "" ∉ supportedPackageTypes
      · rw [processGroupsGo_cons_unsupported fn packages desired b pe connect pkg
          rest provType report h1 h2]
        simp
      · cases h3 : (if provType ≠ some (pkg.getD 2 "") then connect (pkg.getD 2 "")
            else none) with
        | some e =>
          rw [processGroupsGo_cons_connect_err fn packages desired b pe connect pkg
            rest provType report e h1 h2 h3]
          simp
        | none =>
          have hmain : ∀ h4 : (if b then some (pe (pkg.getD 3 "") (pkg.getD 2 ""))
                else none) = none
              ∨ (if b then some (pe (pkg.getD 3 "") (pkg.getD 2 "")) else none)
                = some (.ok false),
              (processGroupsGo fn packages desired b pe connect (pkg :: rest)
                  provType report).1.PackageSuccess
              + (processGroupsGo fn packages desired b pe connect (pkg :: rest)
                  provType report).1.PackagesSkipped
              + (processGroupsGo fn packages desired b pe connect (pkg :: rest)
                  provType report).1.PackagesFailed
              = report.PackageSuccess + report.PackagesSkipped + report.PackagesFailed
                + ((processGroupsGo fn packages desired b pe connect (pkg :: rest)
                    provType report).2.1.filter (fun g => g.pstate.isSome)).length := by
            intro h4
            cases h5 : (processGroup fn packages pkg report).2.2 with
            | some e =>
              rw [processGroupsGo_cons_main_err fn packages desired b pe connect pkg
                rest provType report e h1 h2 h3 h4 h5]
              obtain ⟨ha, hb⟩ := (processGroup_package_total fn packages pkg report).2
                (by rw [h5]; exact Option.some_ne_none e)
              simp only [List.filter_cons, hb, Option.isSome_none, Bool.false_eq_true,
                if_false, ite_false]
              simp [ha]
            | none =>
              rw [processGroupsGo_cons_main fn packages desired b pe connect pkg rest
                provType report h1 h2 h3 h4 h5]
              obtain ⟨ha, hb⟩ := (processGroup_package_total fn packages pkg report).1 h5
              have hih := ih (some (pkg.getD 2 "")) (processGroup fn packages pkg report).1
              simp only [List.filter_cons, hb, if_true, List.length_cons]
              omega
          cases h4 : (if b then some (pe (pkg.getD 3 "") (pkg.getD 2 "")) else none) with
          | none => exact hmain (Or.inl h4)
          | some x =>
            cases x with
            | error e =>
              rw [processGroupsGo_cons_pre_err fn packages desired b pe connect pkg
                rest provType report e h1 h2 h3 h4]
              have hinc := IncPackages_package_total report Failed
              simp only [List.filter_cons]
              simp
              omega
            | ok bb =>
              cases bb with
              | false => exact hmain (Or.inr h4)
              | true =>
                rw [processGroupsGo_cons_pre_skip fn packages desired b pe connect
                  pkg rest provType report h1 h2 h3 h4]
                have hinc := IncPackages_package_total report Skipped
                have hih := ih (some (pkg.getD 2 "")) (report.IncPackages Skipped)
                simp only [List.filter_cons, List.length_cons]
                simp only [Option.isSome_some, if_true]
                simp only [List.length_cons]
                omega

/-! ### Claims about ProcessPackages -/

/-- C2 counterexample: with versions enumerated `[1.0.0, 1.1.0, 2.0.0]`
from the catalog rows, the engine invokes the per-version callback in
the order `[2.0.0, 1.1.0, 1.0.0]` — the reverse of the enumeration
order, not the enumeration order the claim states. -/
theorem c2_counterexample_callback_order_reversed :
    getFlatListOfColumn
      [["organization", "repository", "package_type", "package_name",
        "package_version", "package_filename"],
       ["octo", "r", "maven", "lib", "1.0.0", "lib-1.0.0.jar"],
       ["octo", "r", "maven", "lib", "1.1.0", "lib-1.1.0.jar"],
       ["octo", "r", "maven", "lib", "2.0.0", "lib-2.0.0.jar"]]
      [(0, "octo"), (1, "r"), (2, "maven"), (3, "lib")] 4
      = ["1.0.0", "1.1.0", "2.0.0"]
    ∧ (processPackages (fun _ _ _ _ _ _ => ([Success], none))
        [["organization", "repository", "package_type", "package_name",
          "package_version", "package_filename"],
         ["octo", "r", "maven", "lib", "1.0.0", "lib-1.0.0.jar"],
         ["octo", "r", "maven", "lib", "1.1.0", "lib-1.1.0.jar"],
         ["octo", "r", "maven", "lib", "2.0.0", "lib-2.0.0.jar"]]
        "" false (fun _ _ => .ok false) (fun _ => none)).2.1.map
          (fun g => g.versionRecs.map VersionRec.version)
      = [["2.0.0", "1.1.0", "1.0.0"]]
    ∧ (["2.0.0", "1.1.0", "1.0.0"] : List String) ≠ ["1.0.0", "1.1.0", "2.0.0"] := by
  refine ⟨by decide, by decide, by decide⟩

/-- C2 (amended): for every processed package group, the per-version
callback is invoked in the REVERSE of the catalog enumeration order:
the last-enumerated version first and the first-enumerated version
last (`for i := len(versions) - 1; i >= 0; i--`). -/
theorem c2_amended_versions_processed_in_reverse (fn : ProcessFn)
    (packages : List (List String)) (desired : String)
    (pe : String → String → Except String Bool) (connect : String → Option String)
    (hfn : ∀ o r p n v fns, (fn o r p n v fns).2 = none) :
    ∀ g ∈ (processPackages fn packages desired false pe connect).2.1,
      g.versionRecs.map VersionRec.version
        = (getFlatListOfColumn packages [(0, g.owner), (1, g.repository),
            (2, g.packageType), (3, g.packageName)] 4).reverse := by
  simp only [processPackages]
  exact fun g hg =>
    ((processGroupsGo_main_spec fn packages desired pe connect hfn
      ((getListOfUniqueEntries packages [0, 1, 2, 3]).drop 1) none NewReport).1
      g hg).1

theorem c2_amended_witness :
    (⟨"octo", "r", "maven", "lib",
      [⟨"2.0.0", ["lib-2.0.0.jar"], [Success], Success⟩,
       ⟨"1.0.0", ["lib-1.0.0.jar"], [Success], Success⟩],
      some Success⟩ : GroupRec)
      ∈ (processPackages (fun _ _ _ _ _ _ => ([Success], none))
        [["organization", "repository", "package_type", "package_name",
          "package_version", "package_filename"],
         ["octo", "r", "maven", "lib", "1.0.0", "lib-1.0.0.jar"],
         ["octo", "r", "maven", "lib", "2.0.0", "lib-2.0.0.jar"]]
        "" false (fun _ _ => .ok false) (fun _ => none)).2.1
    ∧ ([⟨"2.0.0", ["lib-2.0.0.jar"], [Success], Success⟩,
        ⟨"1.0.0", ["lib-1.0.0.jar"], [Success], Success⟩]
          : List VersionRec).map VersionRec.version
        = (getFlatListOfColumn
            [["organization", "repository", "package_type", "package_name",
              "package_version", "package_filename"],
             ["octo", "r", "maven", "lib", "1.0.0", "lib-1.0.0.jar"],
             ["octo", "r", "maven", "lib", "2.0.0", "lib-2.0.0.jar"]]
            [(0, "octo"), (1, "r"), (2, "maven"), (3, "lib")] 4).reverse := by
  have hmem : (⟨"octo", "r", "maven", "lib",
      [⟨"2.0.0", ["lib-2.0.0.jar"], [Success], Success⟩,
       ⟨"1.0.0", ["lib-1.0.0.jar"], [Success], Success⟩],
      some Success⟩ : GroupRec)
      ∈ (processPackages (fun _ _ _ _ _ _ => ([Success], none))
        [["organization", "repository", "package_type", "package_name",
          "package_version", "package_filename"],
         ["octo", "r", "maven", "lib", "1.0.0", "lib-1.0.0.jar"],
         ["octo", "r", "maven", "lib", "2.0.0", "lib-2.0.0.jar"]]
        "" false (fun _ _ => .ok false) (fun _ => none)).2.1 := by decide
  exact ⟨hmem, c2_amended_versions_processed_in_reverse
    (fun _ _ _ _ _ _ => ([Success], none))
    [["organization", "repository", "package_type", "package_name",
      "package_version", "package_filename"],
     ["octo", "r", "maven", "lib", "1.0.0", "lib-1.0.0.jar"],
     ["octo", "r", "maven", "lib", "2.0.0", "lib-2.0.0.jar"]]
    "" (fun _ _ => .ok false) (fun _ => none) (fun _ _ _ _ _ _ => rfl)
    _ hmem⟩

/-- C4: for every package group processed without error, every version
record's status is the roll-up of its file results (`Failed` if any
file failed, else `Skipped` if any file was skipped, else `Success`),
the package's status is the same roll-up of its version statuses, and
the version counters in the final report total to exactly one
`IncVersions` call per processed version. -/
theorem c4_report_three_level_rollup (fn : ProcessFn)
    (packages : List (List String)) (desired : String)
    (pe : String → String → Except String Bool) (connect : String → Option String)
    (hfn : ∀ o r p n v fns, (fn o r p n v fns).2 = none) :
    (∀ g ∈ (processPackages fn packages desired false pe connect).2.1,
      (∀ vr ∈ g.versionRecs, vr.vstate = rollup vr.fileResults)
      ∧ g.pstate = some (rollup (g.versionRecs.map VersionRec.vstate)))
    ∧ (processPackages fn packages desired false pe connect).1.VersionSuccess
      + (processPackages fn packages desired false pe connect).1.VersionsSkipped
      + (processPackages fn packages desired false pe connect).1.VersionsFailed
      = ((processPackages fn packages desired false pe connect).2.1.map
          (fun g => g.versionRecs.length)).sum := by
  simp only [processPackages]
  obtain ⟨hA, hB⟩ := processGroupsGo_main_spec fn packages desired pe connect hfn
    ((getListOfUniqueEntries packages [0, 1, 2, 3]).drop 1) none NewReport
  refine ⟨fun g hg => ⟨(hA g hg).2.1, (hA g hg).2.2⟩, ?_⟩
  rw [hB]
  simp [NewReport]

theorem c4_witness :
    (∀ g ∈ (processPackages (fun _ _ _ _ _ _ => ([Success, Skipped], none))
        [["organization", "repository", "package_type", "package_name",
          "package_version", "package_filename"],
         ["octo", "r", "npm", "p", "1.0.0", "f1"]]
        "" false (fun _ _ => .ok false) (fun _ => none)).2.1,
      (∀ vr ∈ g.versionRecs, vr.vstate = rollup vr.fileResults)
      ∧ g.pstate = some (rollup (g.versionRecs.map VersionRec.vstate)))
    ∧ (processPackages (fun _ _ _ _ _ _ => ([Success, Skipped], none))
        [["organization", "repository", "package_type", "package_name",
          "package_version", "package_filename"],
         ["octo", "r", "npm", "p", "1.0.0", "f1"]]
        "" false (fun _ _ => .ok false) (fun _ => none)).1.VersionSuccess
      + (processPackages (fun _ _ _ _ _ _ => ([Success, Skipped], none))
          [["organization", "repository", "package_type", "package_name",
            "package_version", "package_filename"],
           ["octo", "r", "npm", "p", "1.0.0", "f1"]]
          "" false (fun _ _ => .ok false) (fun _ => none)).1.VersionsSkipped
      + (processPackages (fun _ _ _ _ _ _ => ([Success, Skipped], none))
          [["organization", "repository", "package_type", "package_name",
            "package_version", "package_filename"],
           ["octo", "r", "npm", "p", "1.0.0", "f1"]]
          "" false (fun _ _ => .ok false) (fun _ => none)).1.VersionsFailed
      = ((processPackages (fun _ _ _ _ _ _ => ([Success, Skipped], none))
          [["organization", "repository", "package_type", "package_name",
            "package_version", "package_filename"],
           ["octo", "r", "npm", "p", "1.0.0", "f1"]]
          "" false (fun _ _ => .ok false) (fun _ => none)).2.1.map
            (fun g => g.versionRecs.length)).sum :=
  c4_report_three_level_rollup (fun _ _ _ _ _ _ => ([Success, Skipped], none))
    [["organization", "repository", "package_type", "package_name",
      "package_version", "package_filename"],
     ["octo", "r", "npm", "p", "1.0.0", "f1"]]
    "" (fun _ _ => .ok false) (fun _ => none) (fun _ _ _ _ _ _ => rfl)

/-- C10: `ProcessPackages` skips index 0 of the unique
(owner, repository, package_type, package_name) group list outright:
no trace entry ever carries the first group's key, and the package
counters in the final report count exactly the traced (processed or
pre-check-skipped) groups — the first group contributes nothing. -/
theorem c10_first_unique_group_skipped (fn : ProcessFn)
    (packages : List (List String)) (desired : String) (skipIfExists : Bool)
    (pe : String → String → Except String Bool) (connect : String → Option String)
    (gh : List String) (gt : List (List String))
    (hgroups : getListOfUniqueEntries packages [0, 1, 2, 3] = gh :: gt) :
    (∀ g ∈ (processPackages fn packages desired skipIfExists pe connect).2.1,
      [g.owner, g.repository, g.packageType, g.packageName] ≠ gh)
    ∧ (processPackages fn packages desired skipIfExists pe connect).1.PackageSuccess
      + (processPackages fn packages desired skipIfExists pe connect).1.PackagesSkipped
      + (processPackages fn packages desired skipIfExists pe connect).1.PackagesFailed
      = ((processPackages fn packages desired skipIfExists pe connect).2.1.filter
          (fun g => g.pstate.isSome)).length := by
  have hkeys := processGroupsGo_keys fn packages desired skipIfExists pe connect
    ((getListOfUniqueEntries packages [0, 1, 2, 3]).drop 1) none NewReport
  have htot := processGroupsGo_package_total fn packages desired skipIfExists pe
    connect ((getListOfUniqueEntries packages [0, 1, 2, 3]).drop 1) none NewReport
  have hnodup := (getListOfUniqueEntriesGo_keys [0, 1, 2, 3] packages []).1
  have hshape := getListOfUniqueEntriesGo_shape packages []
  simp only [processPackages]
  constructor
  · intro g hg heq
    rcases hkeys g hg with ⟨p, hp, f1, f2, f3, f4⟩
    rw [hgroups] at hp
    simp only [List.drop_one, List.tail_cons] at hp
    have hpmem : p ∈ getListOfUniqueEntries packages [0, 1, 2, 3] := by
      rw [hgroups]
      exact List.mem_cons_of_mem _ hp
    have hpe : p = [p.getD 0 "", p.getD 1 "", p.getD 2 "", p.getD 3 ""] :=
      hshape p hpmem
    have hph : gh = p := by
      rw [← heq, f1, f2, f3, f4, ← hpe]
    have h0 : ((getListOfUniqueEntries packages [0, 1, 2, 3]).map joinColon).Nodup :=
      hnodup
    rw [hgroups] at h0
    simp only [List.map_cons, List.nodup_cons] at h0
    exact h0.1 (List.mem_map.mpr ⟨p, hp, by rw [hph]⟩)
  · rw [htot]
    simp [NewReport]

theorem c10_witness :
    getListOfUniqueEntries
      [["organization", "repository", "package_type", "package_name",
        "package_version", "package_filename"],
       ["octo", "r", "npm", "p1", "1.0.0", "f1"],
       ["octo", "r", "npm", "p2", "1.0.0", "f2"]] [0, 1, 2, 3]
      = [["organization", "repository", "package_type", "package_name"],
         ["octo", "r", "npm", "p1"], ["octo", "r", "npm", "p2"]]
    ∧ ((∀ g ∈ (processPackages (fun _ _ _ _ _ _ => ([Success], none))
          [["organization", "repository", "package_type", "package_name",
            "package_version", "package_filename"],
           ["octo", "r", "npm", "p1", "1.0.0", "f1"],
           ["octo", "r", "npm", "p2", "1.0.0", "f2"]]
          "" false (fun _ _ => .ok false) (fun _ => none)).2.1,
        [g.owner, g.repository, g.packageType, g.packageName]
          ≠ ["organization", "repository", "package_type", "package_name"])
      ∧ (processPackages (fun _ _ _ _ _ _ => ([Success], none))
          [["organization", "repository", "package_type", "package_name",
            "package_version", "package_filename"],
           ["octo", "r", "npm", "p1", "1.0.0", "f1"],
           ["octo", "r", "npm", "p2", "1.0.0", "f2"]]
          "" false (fun _ _ => .ok false) (fun _ => none)).1.PackageSuccess
        + (processPackages (fun _ _ _ _ _ _ => ([Success], none))
            [["organization", "repository", "package_type", "package_name",
              "package_version", "package_filename"],
             ["octo", "r", "npm", "p1", "1.0.0", "f1"],
             ["octo", "r", "npm", "p2", "1.0.0", "f2"]]
            "" false (fun _ _ => .ok false) (fun _ => none)).1.PackagesSkipped
        + (processPackages (fun _ _ _ _ _ _ => ([Success], none))
            [["organization", "repository", "package_type", "package_name",
              "package_version", "package_filename"],
             ["octo", "r", "npm", "p1", "1.0.0", "f1"],
             ["octo", "r", "npm", "p2", "1.0.0", "f2"]]
            "" false (fun _ _ => .ok false) (fun _ => none)).1.PackagesFailed
        = ((processPackages (fun _ _ _ _ _ _ => ([Success], none))
            [["organization", "repository", "package_type", "package_name",
              "package_version", "package_filename"],
             ["octo", "r", "npm", "p1", "1.0.0", "f1"],
             ["octo", "r", "npm", "p2", "1.0.0", "f2"]]
            "" false (fun _ _ => .ok false) (fun _ => none)).2.1.filter
              (fun g => g.pstate.isSome)).length) :=
  ⟨by decide,
    c10_first_unique_group_skipped (fun _ _ _ _ _ _ => ([Success], none))
      [["organization", "repository", "package_type", "package_name",
        "package_version", "package_filename"],
       ["octo", "r", "npm", "p1", "1.0.0", "f1"],
       ["octo", "r", "npm", "p2", "1.0.0", "f2"]]
      "" false (fun _ _ => .ok false) (fun _ => none)
      ["organization", "repository", "package_type", "package_name"]
      [["octo", "r", "npm", "p1"], ["octo", "r", "npm", "p2"]] (by decide)⟩

/-! ### The retry helper -/

theorem retryGo_calls_le (op : Nat → Option String) (d : Nat) :
    ∀ (n a : Nat), (retryGo op d a n).2.1 ≤ n := by
  intro n
  induction n with
  | zero =>
    intro a
    simp [retryGo]
  | succ m ih =>
    intro a
    cases m with
    | zero => simp [retryGo]
    | succ mm =>
      cases hop : op a with
      | none => simp [retryGo, hop]
      | some e =>
        simp only [retryGo, hop]
        have := ih (a + 1)
        omega

theorem retryGo_all_fail (op : Nat → Option String) (d : Nat) :
    ∀ (n a : Nat), 0 < n → 1 ≤ a →
      (∀ j, a ≤ j → j < a + n → op j ≠ none) →
      retryGo op d a n
        = (op (a + n - 1), n,
            (List.range (n - 1)).map (fun i => d * 2 ^ (a - 1 + i))) := by
  intro n
  induction n with
  | zero =>
    intro a h
    omega
  | succ m ih =>
    intro a hpos ha hfail
    cases m with
    | zero =>
      simp [retryGo]
    | succ mm =>
      have hopa := hfail a le_rfl (by omega)
      cases hop : op a with
      | none => exact absurd hop hopa
      | some e =>
        have hrec := ih (a + 1) (by omega) (by omega)
          (fun j hj1 hj2 => hfail j (by omega) (by omega))
        have hidx : a + 1 + (mm + 1) - 1 = a + (mm + 1 + 1) - 1 := by omega
        rw [hidx] at hrec
        have hlist : (List.range (mm + 1 + 1 - 1)).map (fun i => d * 2 ^ (a - 1 + i))
            = (d * 2 ^ (a - 1))
              :: (List.range (mm + 1 - 1)).map (fun i => d * 2 ^ (a + 1 - 1 + i)) := by
          simp only [Nat.add_sub_cancel, List.range_succ_eq_map, List.map_cons,
            List.map_map]
          congr 1
          apply List.map_congr_left
          intro i _
          simp only [Function.comp]
          congr 1
          congr 1
          omega
        simp only [retryGo, hop, hrec]
        rw [hlist]

theorem retryGo_first_success (op : Nat → Option String) (d : Nat) :
    ∀ (n a k : Nat), 1 ≤ a → a ≤ k → k < a + n → op k = none →
      (∀ j, a ≤ j → j < k → op j ≠ none) →
      retryGo op d a n
        = (none, k - a + 1,
            (List.range (k - a)).map (fun i => d * 2 ^ (a - 1 + i))) := by
  intro n
  induction n with
  | zero =>
    intro a k _ h1 h2
    omega
  | succ m ih =>
    intro a k ha hak hk hop hfail
    by_cases hka : k = a
    · subst hka
      cases m with
      | zero => simp [retryGo, hop]
      | succ mm => simp [retryGo, hop]
    · have hlt : a < k := lt_of_le_of_ne hak (fun hh => hka hh.symm)
      have hopa := hfail a le_rfl hlt
      cases m with
      | zero =>
        exfalso
        omega
      | succ mm =>
        cases hop2 : op a with
        | none => exact absurd hop2 hopa
        | some e =>
          have hrec := ih (a + 1) k (by omega) (by omega) (by omega) hop
            (fun j h1 h2 => hfail j (by omega) h2)
          have hlist : (List.range (k - a)).map (fun i => d * 2 ^ (a - 1 + i))
              = (d * 2 ^ (a - 1))
                :: (List.range (k - (a + 1))).map (fun i => d * 2 ^ (a + 1 - 1 + i)) := by
            have hksub : k - a = (k - (a + 1)) + 1 := by omega
            rw [hksub]
            simp only [List.range_succ_eq_map, List.map_cons, List.map_map]
            congr 1
            apply List.map_congr_left
            intro i _
            simp only [Function.comp]
            congr 1
            congr 1
            omega
          simp only [retryGo, hop2, hrec]
          rw [hlist]
          simp only [Prod.mk.injEq, true_and, and_true]
          omega

/-- C8: the retry helper makes at most max(configured, fallback 3)
attempts, stops and returns nil at the first success, sleeps
`delay * 2^(attempt-1)` between consecutive attempts, and returns the
last attempt's error after exhausting all attempts. -/
theorem c8_retry_operation (cfg : Int) (dopt : Option Nat) (op : Nat → Option String) :
    (1 ≤ (if cfg ≤ 0 then 3 else cfg.toNat))
    ∧ (retryOperation cfg dopt op).2.1 ≤ (if cfg ≤ 0 then 3 else cfg.toNat)
    ∧ (∀ k, 1 ≤ k → k ≤ (if cfg ≤ 0 then 3 else cfg.toNat) → op k = none →
        (∀ j, j < k → 1 ≤ j → op j ≠ none) →
        (retryOperation cfg dopt op).1 = none
        ∧ (retryOperation cfg dopt op).2.1 = k
        ∧ (retryOperation cfg dopt op).2.2
            = (List.range (k - 1)).map (fun i => dopt.getD 1000 * 2 ^ i))
    ∧ ((∀ j, j ≤ (if cfg ≤ 0 then 3 else cfg.toNat) → 1 ≤ j → op j ≠ none) →
        (retryOperation cfg dopt op).1 = op (if cfg ≤ 0 then 3 else cfg.toNat)
        ∧ (retryOperation cfg dopt op).2.1 = (if cfg ≤ 0 then 3 else cfg.toNat)
        ∧ (retryOperation cfg dopt op).2.2
            = (List.range ((if cfg ≤ 0 then 3 else cfg.toNat) - 1)).map
                (fun i => dopt.getD 1000 * 2 ^ i)) := by
  have hm1 : 1 ≤ (if cfg ≤ 0 then 3 else cfg.toNat) := by
    by_cases h : cfg ≤ 0 <;> simp [h] <;> omega
  simp only [retryOperation]
  refine ⟨hm1, retryGo_calls_le op (dopt.getD 1000) _ 1, ?_, ?_⟩
  · intro k hk1 hkm hop hfail
    have h := retryGo_first_success op (dopt.getD 1000)
      (if cfg ≤ 0 then 3 else cfg.toNat) 1 k le_rfl hk1 (by omega) hop
      (fun j hj1 hj2 => hfail j hj2 hj1)
    rw [h]
    refine ⟨rfl, by show k - 1 + 1 = k; omega, ?_⟩
    show (List.range (k - 1)).map (fun i => dopt.getD 1000 * 2 ^ (1 - 1 + i))
      = (List.range (k - 1)).map (fun i => dopt.getD 1000 * 2 ^ i)
    simp
  · intro hfail
    have h := retryGo_all_fail op (dopt.getD 1000)
      (if cfg ≤ 0 then 3 else cfg.toNat) 1 (by omega) le_rfl
      (fun j hj1 hj2 => hfail j (by omega) hj1)
    rw [h]
    refine ⟨?_, rfl, ?_⟩
    · show op (1 + (if cfg ≤ 0 then 3 else cfg.toNat) - 1)
        = op (if cfg ≤ 0 then 3 else cfg.toNat)
      congr 1
      omega
    · show (List.range ((if cfg ≤ 0 then 3 else cfg.toNat) - 1)).map
          (fun i => dopt.getD 1000 * 2 ^ (1 - 1 + i))
        = (List.range ((if cfg ≤ 0 then 3 else cfg.toNat) - 1)).map
          (fun i => dopt.getD 1000 * 2 ^ i)
      simp

theorem c8_witness :
    (retryOperation 2 (some 100) (fun k => if k = 2 then none else some "boom")).1
      = none
    ∧ (retryOperation 2 (some 100)
        (fun k => if k = 2 then none else some "boom")).2.1 = 2
    ∧ (retryOperation 2 (some 100)
        (fun k => if k = 2 then none else some "boom")).2.2
      = (List.range (2 - 1)).map (fun i => (some 100).getD 1000 * 2 ^ i) :=
  (c8_retry_operation 2 (some 100)
    (fun k => if k = 2 then none else some "boom")).2.2.1 2
    (by decide) (by decide) (by decide) (by decide)

/-! ### String replacement lemmas -/

theorem replaceAllFuel_congr (pat new : List Char) :
    ∀ (f1 : Nat) (s : List Char) (f2 : Nat), s.length ≤ f1 → s.length ≤ f2 →
      replaceAllFuel pat new f1 s = replaceAllFuel pat new f2 s := by
  intro f1
  induction f1 with
  | zero =>
    intro s f2 h1 h2
    cases s with
    | nil => cases f2 <;> rfl
    | cons c rest => simp at h1
  | succ m ih =>
    intro s f2 h1 h2
    cases s with
    | nil => cases f2 <;> rfl
    | cons c rest =>
      cases f2 with
      | zero => simp at h2
      | succ m2 =>
        simp only [replaceAllFuel]
        by_cases h : pat ≠ [] ∧ pat.isPrefixOf (c :: rest)
        · rw [if_pos h, if_pos h]
          congr 1
          have hplen : 0 < pat.length := List.length_pos.mpr h.1
          apply ih
          · simp only [List.length_drop, List.length_cons]
            simp only [List.length_cons] at h1
            omega
          · simp only [List.length_drop, List.length_cons]
            simp only [List.length_cons] at h2
            omega
        · rw [if_neg h, if_neg h]
          congr 1
          apply ih
          · simp only [List.length_cons] at h1
            omega
          · simp only [List.length_cons] at h2
            omega

theorem replaceAllFuel_self (pat : List Char) :
    ∀ (fuel : Nat) (s : List Char), s.length ≤ fuel →
      replaceAllFuel pat pat fuel s = s := by
  intro fuel
  induction fuel with
  | zero =>
    intro s h
    rfl
  | succ m ih =>
    intro s hs
    cases s with
    | nil => rfl
    | cons c rest =>
      simp only [replaceAllFuel]
      by_cases h : pat ≠ [] ∧ pat.isPrefixOf (c :: rest)
      · rw [if_pos h]
        obtain ⟨t, ht⟩ := List.isPrefixOf_iff_prefix.mp h.2
        have hplen : 0 < pat.length := List.length_pos.mpr h.1
        have hdrop : (c :: rest).drop pat.length = t := by
          rw [← ht, List.drop_left]
        rw [hdrop, ih t]
        · exact ht
        · have := congrArg List.length ht
          simp only [List.length_append, List.length_cons] at this
          simp only [List.length_cons] at hs
          omega
      · rw [if_neg h]
        rw [ih rest]
        simp only [List.length_cons] at hs
        omega

theorem replaceAllFuel_no_occurrence (pat new : List Char) :
    ∀ (fuel : Nat) (s : List Char), s.length ≤ fuel →
      (∀ i, i < s.length → ¬ pat.isPrefixOf (s.drop i)) →
      replaceAllFuel pat new fuel s = s := by
  intro fuel
  induction fuel with
  | zero =>
    intro s h1 h2
    rfl
  | succ m ih =>
    intro s hs hocc
    cases s with
    | nil => rfl
    | cons c rest =>
      simp only [replaceAllFuel]
      rw [if_neg (fun hh => hocc 0 (by simp) (by simpa using hh.2))]
      rw [ih rest]
      · simp only [List.length_cons] at hs
        omega
      · intro i hi
        have := hocc (i + 1) (by simp only [List.length_cons]; omega)
        simpa using this

theorem replaceAllFuel_append_left (pat new : List Char) :
    ∀ (x y : List Char) (fuel : Nat), x.length + y.length ≤ fuel →
      (∀ i, i < x.length → ¬ pat.isPrefixOf ((x ++ y).drop i)) →
      replaceAllFuel pat new fuel (x ++ y)
        = x ++ replaceAllFuel pat new y.length y := by
  intro x
  induction x with
  | nil =>
    intro y fuel hf h
    simp only [List.nil_append]
    exact replaceAllFuel_congr pat new fuel y y.length (by simpa using hf) le_rfl
  | cons cx restx ih =>
    intro y fuel hf h
    cases fuel with
    | zero => simp at hf
    | succ m =>
      simp only [List.cons_append, replaceAllFuel, List.append_eq]
      rw [if_neg (fun hh => (h 0 (by simp)) (by simpa using hh.2))]
      rw [ih y m]
      · simp only [List.length_cons] at hf
        omega
      · intro i hi
        have := h (i + 1) (by simp only [List.length_cons]; omega)
        simpa using this

theorem replaceAllFuel_append_pat (pat new : List Char) (hp : pat ≠ []) :
    ∀ (y : List Char) (fuel : Nat), pat.length + y.length ≤ fuel →
      replaceAllFuel pat new fuel (pat ++ y)
        = new ++ replaceAllFuel pat new y.length y := by
  intro y fuel hf
  cases hpat : pat with
  | nil => exact absurd hpat hp
  | cons p ps =>
    subst hpat
    cases fuel with
    | zero => simp at hf
    | succ m =>
      simp only [List.cons_append, replaceAllFuel, List.append_eq]
      rw [if_pos ⟨hp, List.isPrefixOf_iff_prefix.mpr
        (by rw [← List.cons_append]; exact List.prefix_append _ _)⟩]
      have hdrop : (p :: (ps ++ y)).drop (p :: ps).length = y := by
        rw [← List.cons_append, List.drop_left]
      rw [hdrop]
      congr 1
      apply replaceAllFuel_congr
      · simp only [List.length_cons] at hf ⊢
        omega
      · exact le_rfl

/-! ### The same, at the replaceAll level -/

theorem replaceAll_self (pat s : List Char) : replaceAll pat pat s = s :=
  replaceAllFuel_self pat s.length s le_rfl

theorem replaceAll_no_occurrence (pat new s : List Char)
    (h : ∀ i, i < s.length → ¬ pat.isPrefixOf (s.drop i)) :
    replaceAll pat new s = s :=
  replaceAllFuel_no_occurrence pat new s.length s le_rfl h

theorem replaceAll_append_left (pat new x y : List Char)
    (h : ∀ i, i < x.length → ¬ pat.isPrefixOf ((x ++ y).drop i)) :
    replaceAll pat new (x ++ y) = x ++ replaceAll pat new y := by
  unfold replaceAll
  rw [List.length_append]
  exact replaceAllFuel_append_left pat new x y (x.length + y.length) le_rfl h

theorem replaceAll_append_pat (pat new y : List Char) (hp : pat ≠ []) :
    replaceAll pat new (pat ++ y) = new ++ replaceAll pat new y := by
  unfold replaceAll
  rw [List.length_append]
  exact replaceAllFuel_append_pat pat new hp y (pat.length + y.length) le_rfl

/-- C7 counterexample: in the github.com configuration (hostnames
unset) the first `RenameFileOccurances` pattern degenerates to the bare
organization string, so Rename rewrites EVERY occurrence of `old-org`:
a gemspec containing both required URLs plus the unrelated substring
`old-org-tools` comes out with `new-org-tools`, altering a substring
outside the two URLs, contrary to the claim. -/
theorem c7_counterexample_rename_touches_other_substrings :
    rubyGemsRename "" "" "old-org" "new-org"
      ("https://rubygems.pkg.github.com/old-org https://github.com/old-org gem old-org-tools").data
      = ("https://rubygems.pkg.github.com/new-org https://github.com/new-org gem new-org-tools").data
    ∧ ("https://rubygems.pkg.github.com/new-org https://github.com/new-org gem new-org-tools").data
      ≠ ("https://rubygems.pkg.github.com/new-org https://github.com/new-org gem old-org-tools").data := by
  refine ⟨by decide, by decide⟩

/-- C7 (amended): RubyGems Rename (hostnames unset, source organization
`old-org`, target `new-org`) replaces every occurrence of `old-org` in
the gemspec by `new-org`.  In particular, on a gemspec of the shape
`a ++ "https://rubygems.pkg.github.com/old-org" ++ b ++
"https://github.com/old-org" ++ c` in which `old-org` occurs nowhere
else, both URL strings are rewritten with `new-org` in place of
`old-org` and no other substring is altered. -/
theorem c7_amended_rename_rewrites_only_org_occurrences (a b c : List Char)
    (h1 : ∀ i, i < (a ++ "https://rubygems.pkg.github.com/".data).length →
      ¬ ("old-org".data).isPrefixOf
        (((a ++ "https://rubygems.pkg.github.com/".data)
          ++ ("old-org".data ++ ((b ++ "https://github.com/".data)
            ++ ("old-org".data ++ c)))).drop i))
    (h2 : ∀ i, i < (b ++ "https://github.com/".data).length →
      ¬ ("old-org".data).isPrefixOf
        (((b ++ "https://github.com/".data) ++ ("old-org".data ++ c)).drop i))
    (h3 : ∀ i, i < c.length → ¬ ("old-org".data).isPrefixOf (c.drop i)) :
    rubyGemsRename "" "" "old-org" "new-org"
        ((a ++ "https://rubygems.pkg.github.com/".data)
          ++ ("old-org".data ++ ((b ++ "https://github.com/".data)
            ++ ("old-org".data ++ c))))
      = (a ++ "https://rubygems.pkg.github.com/".data)
          ++ ("new-org".data ++ ((b ++ "https://github.com/".data)
            ++ ("new-org".data ++ c))) := by
  unfold rubyGemsRename
  have hhost1 : hostOrgPath "" "old-org" = "old-org" := by decide
  have hhost2 : hostOrgPath "" "new-org" = "new-org" := by decide
  rw [hhost1, hhost2]
  rw [replaceAll_append_left _ _ _ _ h1]
  rw [replaceAll_append_pat _ _ _ (by decide)]
  rw [replaceAll_append_left _ _ _ _ h2]
  rw [replaceAll_append_pat _ _ _ (by decide)]
  rw [replaceAll_no_occurrence _ _ _ h3]
  exact replaceAll_self _ _

set_option maxRecDepth 4000 in
theorem c7_amended_witness :
    (∀ i, i < (("x ").data ++ "https://rubygems.pkg.github.com/".data).length →
      ¬ ("old-org".data).isPrefixOf
        (((("x ").data ++ "https://rubygems.pkg.github.com/".data)
          ++ ("old-org".data ++ (((" y ").data ++ "https://github.com/".data)
            ++ ("old-org".data ++ (" z").data)))).drop i))
    ∧ (∀ i, i < ((" y ").data ++ "https://github.com/".data).length →
      ¬ ("old-org".data).isPrefixOf
        ((((" y ").data ++ "https://github.com/".data)
          ++ ("old-org".data ++ (" z").data)).drop i))
    ∧ (∀ i, i < (" z").data.length →
      ¬ ("old-org".data).isPrefixOf ((" z").data.drop i))
    ∧ rubyGemsRename "" "" "old-org" "new-org"
        ((("x ").data ++ "https://rubygems.pkg.github.com/".data)
          ++ ("old-org".data ++ (((" y ").data ++ "https://github.com/".data)
            ++ ("old-org".data ++ (" z").data))))
      = (("x ").data ++ "https://rubygems.pkg.github.com/".data)
          ++ ("new-org".data ++ (((" y ").data ++ "https://github.com/".data)
            ++ ("new-org".data ++ (" z").data))) :=
  ⟨by decide, by decide, by decide,
    c7_amended_rename_rewrites_only_org_occurrences ("x ").data (" y ").data
      (" z").data (by decide) (by decide) (by decide)⟩

/-- C6: container Rename runs the create/commit recreation at most once
per image identity.  With an empty-for-this-identity cache, the first
Rename (tag `f1`) performs exactly one ContainerCreate and one
ContainerCommit and records the identity in `recreatedShas`; the second
Rename (tag `f2`, same inspected identity) performs no create and no
commit — only an inspect followed by a re-tag of the cached target
reference — and leaves the cache unchanged. -/
theorem c6_container_rename_recreates_once (eng : DockerEngine)
    (shas0 : List (String × String))
    (sourceOrg targetOrg f1 f2 imageId : String)
    (L1 L2 : List (String × String)) (cid : String)
    (hne : checkOrganizationsMatch sourceOrg targetOrg = false)
    (h1 : eng.inspect (containerRef sourceOrg f1) = .ok (imageId, L1))
    (h2 : eng.inspect (containerRef sourceOrg f2) = .ok (imageId, L2))
    (h0 : shas0.lookup imageId = none)
    (hcr : eng.containerCreate (containerRef sourceOrg f1)
      (renamedSourceLabels sourceOrg targetOrg L1) = .ok cid)
    (hcm : eng.containerCommit cid (containerRef targetOrg f1)
      (renamedSourceLabels sourceOrg targetOrg L1) = .ok ())
    (htag : eng.imageTag (containerRef targetOrg f1) (containerRef targetOrg f2)
      = .ok ()) :
    (containerRename eng shas0 sourceOrg targetOrg f1).1 = .ok ()
    ∧ ((containerRename eng shas0 sourceOrg targetOrg f1).2.2.filter
        isCreateOp).length = 1
    ∧ ((containerRename eng shas0 sourceOrg targetOrg f1).2.2.filter
        isCommitOp).length = 1
    ∧ (containerRename eng shas0 sourceOrg targetOrg f1).2.1.lookup imageId
        = some (containerRef targetOrg f1)
    ∧ (containerRename eng (containerRename eng shas0 sourceOrg targetOrg f1).2.1
        sourceOrg targetOrg f2).1 = .ok ()
    ∧ (containerRename eng (containerRename eng shas0 sourceOrg targetOrg f1).2.1
        sourceOrg targetOrg f2).2.2
      = [.inspectOp (containerRef sourceOrg f2),
         .tagOp (containerRef targetOrg f1) (containerRef targetOrg f2)]
    ∧ (containerRename eng (containerRename eng shas0 sourceOrg targetOrg f1).2.1
        sourceOrg targetOrg f2).2.1
      = (containerRename eng shas0 sourceOrg targetOrg f1).2.1 := by
  have hc1 : containerRename eng shas0 sourceOrg targetOrg f1
      = (.ok (), (imageId, containerRef targetOrg f1) :: shas0,
          [.inspectOp (containerRef sourceOrg f1),
           .createOp (containerRef sourceOrg f1)
             (renamedSourceLabels sourceOrg targetOrg L1),
           .commitOp cid (containerRef targetOrg f1)
             (renamedSourceLabels sourceOrg targetOrg L1),
           .removeOp cid]) := by
    simp only [containerRename, hne, h1, h0, hcr, hcm]
    simp
  have hlk : ((imageId, containerRef targetOrg f1) :: shas0).lookup imageId
      = some (containerRef targetOrg f1) := by
    simp [List.lookup]
  have hc2 : containerRename eng ((imageId, containerRef targetOrg f1) :: shas0)
      sourceOrg targetOrg f2
      = (.ok (), (imageId, containerRef targetOrg f1) :: shas0,
          [.inspectOp (containerRef sourceOrg f2),
           .tagOp (containerRef targetOrg f1) (containerRef targetOrg f2)]) := by
    simp only [containerRename, hne, h2, hlk, htag]
    simp
  rw [hc1]
  dsimp only
  rw [hc2]
  refine ⟨rfl, ?_, ?_, hlk, rfl, rfl, rfl⟩
  · simp [List.filter, isCreateOp]
  · simp [List.filter, isCommitOp]

theorem c6_witness :
    checkOrganizationsMatch "acme" "acme-new" = false
    ∧ twoTagEngine.inspect (containerRef "acme" "app:v1")
        = Except.ok ("sha256:abc", [])
    ∧ ((containerRename twoTagEngine [] "acme" "acme-new" "app:v1").2.2.filter
        isCreateOp).length = 1
    ∧ (containerRename twoTagEngine
        (containerRename twoTagEngine [] "acme" "acme-new" "app:v1").2.1
        "acme" "acme-new" "app:latest").2.2
      = [.inspectOp (containerRef "acme" "app:latest"),
         .tagOp (containerRef "acme-new" "app:v1")
           (containerRef "acme-new" "app:latest")] :=
  ⟨by decide, rfl,
    (c6_container_rename_recreates_once twoTagEngine [] "acme" "acme-new"
      "app:v1" "app:latest" "sha256:abc" [] [] "cid1" (by decide) rfl
      rfl rfl rfl rfl rfl).2.1,
    (c6_container_rename_recreates_once twoTagEngine [] "acme" "acme-new"
      "app:v1" "app:latest" "sha256:abc" [] [] "cid1" (by decide) rfl
      rfl rfl rfl rfl rfl).2.2.2.2.2.1⟩

/-! ### Invariants of the Download concurrency model -/

theorem coe_append_cons {A : Type} (x : A) (l1 l2 : List A) :
    (↑(l1 ++ x :: l2) : Multiset A) = x ::ₘ (↑(l1 ++ l2) : Multiset A) := by
  show (↑l1 + (x ::ₘ ↑l2) : Multiset A) = x ::ₘ ((↑l1 : Multiset A) + ↑l2)
  exact Multiset.add_cons x l1 l2

theorem dl_invariant (res : String → ResultState × Option String)
    (filenames : List String) :
    ∀ s, DLReach res (initDLState filenames) s →
      runningCount s + s.semAvail = 5
      ∧ s.tasks.map Prod.fst = filenames
      ∧ s.errs = errsOf res s.tasks
      ∧ s.incs = incsOf res s.tasks := by
  intro s h
  induction h with
  | refl =>
    refine ⟨?_, ?_, ?_, ?_⟩
    · simp [runningCount, initDLState, List.filter_map, Function.comp_def]
    · simp only [initDLState, List.map_map]
      exact List.map_id'' (congrFun rfl) filenames
    · simp only [errsOf, initDLState, List.filterMap_map]
      symm
      rw [Multiset.coe_eq_zero, List.filterMap_eq_nil_iff]
      intro a ha
      simp
    · simp only [incsOf, initDLState, List.filterMap_map]
      symm
      rw [Multiset.coe_eq_zero, List.filterMap_eq_nil_iff]
      intro a ha
      simp
  | tail hr hstep ih =>
    obtain ⟨ih1, ih2, ih3, ih4⟩ := ih
    cases hstep with
    | start l r f htasks hsem =>
      simp only [runningCount] at ih1
      rw [htasks] at ih1 ih2 ih3 ih4
      simp only [List.filter_append, List.filter_cons, List.length_append] at ih1
      simp only [List.map_append, List.map_cons] at ih2
      simp only [errsOf, List.filterMap_append, List.filterMap_cons] at ih3
      simp only [incsOf, List.filterMap_append, List.filterMap_cons] at ih4
      simp at ih1 ih3 ih4
      refine ⟨?_, ?_, ?_, ?_⟩
      · simp only [runningCount, List.filter_append, List.filter_cons,
          List.length_append]
        simp
        omega
      · simpa using ih2
      · simp only [errsOf, List.filterMap_append, List.filterMap_cons]
        simpa using ih3
      · simp only [incsOf, List.filterMap_append, List.filterMap_cons]
        simpa using ih4
    | finishOk l r f htasks hok =>
      simp only [runningCount] at ih1
      rw [htasks] at ih1 ih2 ih3 ih4
      simp only [List.filter_append, List.filter_cons, List.length_append] at ih1
      simp only [List.map_append, List.map_cons] at ih2
      simp only [errsOf, List.filterMap_append, List.filterMap_cons] at ih3
      simp only [incsOf, List.filterMap_append, List.filterMap_cons] at ih4
      simp at ih1 ih3 ih4
      refine ⟨?_, ?_, ?_, ?_⟩
      · simp only [runningCount, List.filter_append, List.filter_cons,
          List.length_append]
        simp
        omega
      · simpa using ih2
      · simp only [errsOf, List.filterMap_append, List.filterMap_cons]
        simp [hok]
        exact ih3
      · simp only [incsOf, List.filterMap_append, List.filterMap_cons]
        simp [hok]
        rw [ih4, coe_append_cons]
    | finishErr l r f e htasks herr =>
      simp only [runningCount] at ih1
      rw [htasks] at ih1 ih2 ih3 ih4
      simp only [List.filter_append, List.filter_cons, List.length_append] at ih1
      simp only [List.map_append, List.map_cons] at ih2
      simp only [errsOf, List.filterMap_append, List.filterMap_cons] at ih3
      simp only [incsOf, List.filterMap_append, List.filterMap_cons] at ih4
      simp at ih1 ih3 ih4
      refine ⟨?_, ?_, ?_, ?_⟩
      · simp only [runningCount, List.filter_append, List.filter_cons,
          List.length_append]
        simp
        omega
      · simpa using ih2
      · simp only [errsOf, List.filterMap_append, List.filterMap_cons]
        simp [herr]
        rw [ih3, coe_append_cons]
      · simp only [incsOf, List.filterMap_append, List.filterMap_cons]
        simp [herr]
        exact ih4

theorem dl_progress (res : String → ResultState × Option String)
    (filenames : List String) (s : DLState)
    (h : DLReach res (initDLState filenames) s) (hnd : ¬ allDone s) :
    ∃ u, DLStep res s u := by
  obtain ⟨ih1, _, _, _⟩ := dl_invariant res filenames s h
  have hex : ∃ t ∈ s.tasks, t.2 ≠ TaskPhase.done := by
    by_contra hall
    push_neg at hall
    exact hnd (fun t ht => hall t ht)
  obtain ⟨⟨f, ph⟩, htmem, htne⟩ := hex
  cases ph with
  | done => exact absurd rfl htne
  | running =>
    obtain ⟨l, r, hsplit⟩ := List.append_of_mem htmem
    cases hres : (res f).2 with
    | none => exact ⟨_, DLStep.finishOk s l r f hsplit hres⟩
    | some e => exact ⟨_, DLStep.finishErr s l r f e hsplit hres⟩
  | waiting =>
    by_cases hsem : 0 < s.semAvail
    · obtain ⟨l, r, hsplit⟩ := List.append_of_mem htmem
      exact ⟨_, DLStep.start s l r f hsplit hsem⟩
    · have hrun : 0 < runningCount s := by omega
      have hne : s.tasks.filter (fun t => t.2 == TaskPhase.running) ≠ [] := by
        intro hnil
        rw [runningCount, hnil] at hrun
        simp at hrun
      obtain ⟨⟨f2, ph2⟩, h2mem⟩ := List.exists_mem_of_ne_nil _ hne
      obtain ⟨h2tasks, h2run⟩ := List.mem_filter.mp h2mem
      have hph2 : ph2 = TaskPhase.running := by simpa using h2run
      subst hph2
      obtain ⟨l, r, hsplit⟩ := List.append_of_mem h2tasks
      cases hres : (res f2).2 with
      | none => exact ⟨_, DLStep.finishOk s l r f2 hsplit hres⟩
      | some e => exact ⟨_, DLStep.finishErr s l r f2 e hsplit hres⟩

theorem filterMap_tasks_done {B : Type} (F : String × TaskPhase → Option B)
    (g : String → Option B) (hF : ∀ f, F (f, TaskPhase.done) = g f) :
    ∀ tasks : List (String × TaskPhase), (∀ t ∈ tasks, t.2 = TaskPhase.done) →
      tasks.filterMap F = (tasks.map Prod.fst).filterMap g := by
  intro tasks
  induction tasks with
  | nil =>
    intro _
    rfl
  | cons t rest ih =>
    intro hall
    obtain ⟨f, ph⟩ := t
    have hph : ph = TaskPhase.done := hall (f, ph) (List.mem_cons_self _ _)
    subst hph
    have hrest := ih (fun t ht => hall t (List.mem_cons_of_mem _ ht))
    simp only [List.filterMap_cons, List.map_cons, hF, hrest]

/-- C9: the Download callback launches one task per filename; in every
reachable interleaving at most 5 transfers run simultaneously
(semaphore bound); from any reachable state with an unfinished task a
step is possible (so the pre-return join always completes); and in any
reachable all-done (joined) state the collected errors are exactly the
failures of all filenames — none lost to short-circuiting — with the
combined returned error nil exactly when no file transfer failed, and
the IncFiles records exactly the successful transfers. -/
theorem c9_download_concurrency (res : String → ResultState × Option String)
    (filenames : List String) :
    (initDLState filenames).tasks = filenames.map (fun f => (f, TaskPhase.waiting))
    ∧ (∀ s, DLReach res (initDLState filenames) s → runningCount s ≤ 5)
    ∧ (∀ s, DLReach res (initDLState filenames) s → ¬ allDone s →
        ∃ u, DLStep res s u)
    ∧ (∀ s, DLReach res (initDLState filenames) s → allDone s →
        s.errs = ↑(filenames.filterMap (fun f => ((res f).2).map (failMsg f)))
        ∧ s.incs = ↑(filenames.filterMap (fun f =>
            if ((res f).2).isNone then some (res f).1 else none))
        ∧ (downloadResult s = none ↔ ∀ f ∈ filenames, (res f).2 = none)) := by
  refine ⟨rfl, ?_, ?_, ?_⟩
  · intro s hs
    have := (dl_invariant res filenames s hs).1
    omega
  · intro s hs hnd
    exact dl_progress res filenames s hs hnd
  · intro s hs hdone
    obtain ⟨_, hmap, herrs, hincs⟩ := dl_invariant res filenames s hs
    have herr2 : s.errs
        = ↑(filenames.filterMap (fun f => ((res f).2).map (failMsg f))) := by
      rw [herrs, errsOf, filterMap_tasks_done _
        (fun f => ((res f).2).map (failMsg f)) (fun f => by simp) s.tasks hdone,
        hmap]
    refine ⟨herr2, ?_, ?_⟩
    · rw [hincs, incsOf, filterMap_tasks_done _
        (fun f => if ((res f).2).isNone then some (res f).1 else none)
        (fun f => by simp) s.tasks hdone, hmap]
    · rw [downloadResult]
      constructor
      · intro hres f hf
        have hz : s.errs = 0 := by
          by_cases hz : s.errs = 0
          · exact hz
          · simp [hz] at hres
        rw [herr2] at hz
        have : filenames.filterMap (fun f => ((res f).2).map (failMsg f)) = [] := by
          exact (Multiset.coe_eq_zero _).mp hz
        have := List.filterMap_eq_nil_iff.mp this f hf
        simpa using this
      · intro hall
        have hz : filenames.filterMap (fun f => ((res f).2).map (failMsg f)) = [] := by
          rw [List.filterMap_eq_nil_iff]
          intro f hf
          simp [hall f hf]
        rw [herr2, hz]
        simp

theorem c9_witness :
    DLReach (fun f => if f = "b" then (Failed, some "boom") else (Success, none))
      (initDLState ["a", "b"])
      ⟨[("a", TaskPhase.done), ("b", TaskPhase.done)], 5,
        {failMsg "b" "boom"}, {Success}⟩
    ∧ allDone ⟨[("a", TaskPhase.done), ("b", TaskPhase.done)], 5,
        {failMsg "b" "boom"}, {Success}⟩
    ∧ (DLState.mk [("a", TaskPhase.done), ("b", TaskPhase.done)] 5
          {failMsg "b" "boom"} {Success}).errs
        = ↑(["a", "b"].filterMap (fun f =>
            (((fun f => if f = "b" then (Failed, some "boom")
              else (Success, none)) f).2).map (failMsg f)))
    ∧ (downloadResult ⟨[("a", TaskPhase.done), ("b", TaskPhase.done)], 5,
          {failMsg "b" "boom"}, {Success}⟩ = none
        ↔ ∀ f ∈ ["a", "b"],
            ((fun f => if f = "b" then (Failed, some "boom")
              else (Success, none)) f).2 = none) := by
  have h1 : DLStep (fun f => if f = "b" then (Failed, some "boom")
      else (Success, none)) (initDLState ["a", "b"])
      ⟨[("a", TaskPhase.running), ("b", TaskPhase.waiting)], 4, 0, 0⟩ :=
    DLStep.start (initDLState ["a", "b"]) [] [("b", TaskPhase.waiting)] "a"
      rfl (by decide)
  have h2 : DLStep (fun f => if f = "b" then (Failed, some "boom")
      else (Success, none))
      ⟨[("a", TaskPhase.running), ("b", TaskPhase.waiting)], 4, 0, 0⟩
      ⟨[("a", TaskPhase.done), ("b", TaskPhase.waiting)], 5, 0, {Success}⟩ :=
    DLStep.finishOk _ [] [("b", TaskPhase.waiting)] "a" rfl (by decide)
  have h3 : DLStep (fun f => if f = "b" then (Failed, some "boom")
      else (Success, none))
      ⟨[("a", TaskPhase.done), ("b", TaskPhase.waiting)], 5, 0, {Success}⟩
      ⟨[("a", TaskPhase.done), ("b", TaskPhase.running)], 4, 0, {Success}⟩ :=
    DLStep.start _ [("a", TaskPhase.done)] [] "b" rfl (by decide)
  have h4 : DLStep (fun f => if f = "b" then (Failed, some "boom")
      else (Success, none))
      ⟨[("a", TaskPhase.done), ("b", TaskPhase.running)], 4, 0, {Success}⟩
      ⟨[("a", TaskPhase.done), ("b", TaskPhase.done)], 5,
        {failMsg "b" "boom"}, {Success}⟩ :=
    DLStep.finishErr _ [("a", TaskPhase.done)] [] "b" "boom" rfl (by decide)
  have hreach : DLReach (fun f => if f = "b" then (Failed, some "boom")
      else (Success, none)) (initDLState ["a", "b"])
      ⟨[("a", TaskPhase.done), ("b", TaskPhase.done)], 5,
        {failMsg "b" "boom"}, {Success}⟩ :=
    Relation.ReflTransGen.tail (Relation.ReflTransGen.tail
      (Relation.ReflTransGen.tail (Relation.ReflTransGen.tail
        Relation.ReflTransGen.refl h1) h2) h3) h4
  have hdone : allDone ⟨[("a", TaskPhase.done), ("b", TaskPhase.done)], 5,
      {failMsg "b" "boom"}, {Success}⟩ := by
    intro t ht
    rcases List.mem_cons.mp ht with h | h
    · rw [h]
    · rw [List.mem_singleton.mp h]
  obtain ⟨he, hi, hd⟩ := (c9_download_concurrency
    (fun f => if f = "b" then (Failed, some "boom") else (Success, none))
    ["a", "b"]).2.2.2
    ⟨[("a", TaskPhase.done), ("b", TaskPhase.done)], 5,
      {failMsg "b" "boom"}, {Success}⟩ hreach hdone
  exact ⟨hreach, hdone, he, hd⟩

end GhMigratePackages
